import Mathlib

/-!
Verification development for the pete-os core: the window registry and
z-order engine (`createWindowManager`), the application lifecycle engine
(`createApplicationLifecycleManager`), the gesture recognizers and the
context-matching rules of the input system.  Each TypeScript function that
the properties refer to is translated into an executable Lean definition;
JavaScript `Map`s become association lists with `Map` semantics, in-place
object mutation becomes functional update, `JSON` values become the `JVal`
inductive, and the two `setTimeout`-deferred focus steps become separate
transition steps (they invoke the public `focusWindow`, which is itself a
transition).  JavaScript truthiness of nullable strings, of optional
booleans and of optional numbers is modelled explicitly where the source
relies on it.
-/

namespace PeteOS

/-- Model of a JavaScript/JSON value as it appears after `JSON.parse` or
before `JSON.stringify`; `undef` stands for `undefined` (producible by
property access misses, never by `JSON.parse`). -/
inductive JVal where
  | null : JVal
  | undef : JVal
  | bool : Bool → JVal
  | num : Int → JVal
  | str : String → JVal
  | arr : List JVal → JVal
  | obj : List (String × JVal) → JVal

/-! ## JavaScript `Map` semantics over association lists

`Map.get` returns the entry for a key, `Map.set` overwrites an existing
entry in place (keeping its position) or appends a new one, `Map.delete`
removes the entry.  In-place mutation of a stored object is `mapUpdate`. -/

def mapGet {α : Type} : List (String × α) → String → Option α
  | [], _ => none
  | p :: rest, k => if p.1 = k then some p.2 else mapGet rest k

def mapSet {α : Type} : List (String × α) → String → α → List (String × α)
  | [], k, v => [(k, v)]
  | p :: rest, k, v => if p.1 = k then (k, v) :: rest else p :: mapSet rest k v

def mapDelete {α : Type} : List (String × α) → String → List (String × α)
  | [], _ => []
  | p :: rest, k => if p.1 = k then mapDelete rest k else p :: mapDelete rest k

def mapUpdate {α : Type} : List (String × α) → String → (α → α) → List (String × α)
  | [], _, _ => []
  | p :: rest, k, f =>
      (if p.1 = k then (p.1, f p.2) else p) :: mapUpdate rest k f

/-! ## Window data model (window.types.ts) -/

structure WindowPosition where
  x : Int
  y : Int
deriving DecidableEq

structure WindowSize where
  width : Int
  height : Int
deriving DecidableEq

structure WindowBounds where
  position : WindowPosition
  size : WindowSize
deriving DecidableEq

/-- `WindowState` of window.types.ts; `metadata` is an opaque JSON blob,
absent when the caller passed none (`title` is never set by the manager). -/
structure Window where
  id : String
  appId : String
  bounds : WindowBounds
  zIndex : Int
  isFocused : Bool
  isMinimized : Bool
  isMaximized : Bool
  isVisible : Bool
  metadata : Option JVal

structure WindowConstraints where
  minWidth : Option Int := none
  minHeight : Option Int := none
  maxWidth : Option Int := none
  maxHeight : Option Int := none
  canResize : Option Bool := none
  canMove : Option Bool := none
  canMinimize : Option Bool := none
  canMaximize : Option Bool := none
  canClose : Option Bool := none

/-- `WindowManagerState`: the `state` variable of `createWindowManager`. -/
structure WMState where
  windows : List (String × Window)
  windowOrder : List String
  focusedWindowId : Option String
  nextZIndex : Int

/-- The closure state of one `createWindowManager()` instance: the
serializable `state` plus the separate `windowConstraints` map.  The
`viewport` variable and the event-handler set play no role in the
properties below and are omitted. -/
structure Manager where
  state : WMState
  constraints : List (String × WindowConstraints)

def initManager : Manager :=
  { state := { windows := [], windowOrder := [], focusedWindowId := none, nextZIndex := 1 },
    constraints := [] }

/-! ## Window manager operations (part_002) -/

/-- `updateZIndices` walks the stacking order and assigns `index + 1` to
each window that exists; the fold mirrors the source `forEach` with its
running index. -/
def applyZ : Int → List String → List (String × Window) → List (String × Window)
  | _, [], ws => ws
  | i, id :: rest, ws =>
      applyZ (i + 1) rest (mapUpdate ws id (fun w => { w with zIndex := i + 1 }))

def updateZIndices (s : WMState) : WMState :=
  { s with
    windows := applyZ 0 s.windowOrder s.windows,
    nextZIndex := s.windowOrder.length + 1 }

/-- `getTopmostWindow`: scan the stacking order from the top for a window
that exists, is not minimized and is visible. -/
def getTopmost (s : WMState) : Option Window :=
  s.windowOrder.reverse.findSome? (fun id =>
    match mapGet s.windows id with
    | some w => if !w.isMinimized && w.isVisible then some w else none
    | none => none)

/-- `createWindow`: throws (modelled as `Except.error`, state unchanged)
on a duplicate id; otherwise installs the new window with the next
z-index, appends it to the stacking order and records its constraints.
The deferred `setTimeout` auto-focus is a separate `focusWindow` step. -/
def createWindow (id appId : String) (initialBounds : Option WindowBounds)
    (constraints : Option WindowConstraints) (metadata : Option JVal)
    (m : Manager) : Except String Window × Manager :=
  if (mapGet m.state.windows id).isSome then
    (Except.error ("Window with id " ++ id ++ " already exists"), m)
  else
    let bounds : WindowBounds :=
      { position := (initialBounds.map (·.position)).getD { x := 50, y := 50 },
        size := (initialBounds.map (·.size)).getD { width := 400, height := 300 } }
    let w : Window :=
      { id := id, appId := appId, bounds := bounds, zIndex := m.state.nextZIndex,
        isFocused := false, isMinimized := false, isMaximized := false,
        isVisible := true, metadata := metadata }
    let st :=
      { m.state with
        windows := mapSet m.state.windows id w,
        windowOrder := m.state.windowOrder ++ [id],
        nextZIndex := m.state.nextZIndex + 1 }
    let cs :=
      match constraints with
      | some c => mapSet m.constraints id c
      | none => m.constraints
    (Except.ok w, { state := st, constraints := cs })

/-- The blur step of `focusWindow`: `if (state.focusedWindowId &&
state.focusedWindowId !== id)` — the empty string is falsy — clear the
previous window's focused flag if it still exists. -/
def blurPrevious (id : String) (s : WMState) : WMState :=
  match s.focusedWindowId with
  | some fid =>
      if fid ≠ "" ∧ fid ≠ id then
        { s with windows := mapUpdate s.windows fid (fun p => { p with isFocused := false }) }
      else s
  | none => s

/-- `bringToFront`: no-op when the id is absent; otherwise move the id to
the end of the stacking order and recompute all z-indices. -/
def bringToFront (id : String) (s : WMState) : WMState :=
  match mapGet s.windows id with
  | none => s
  | some _ =>
      updateZIndices { s with windowOrder := s.windowOrder.filter (fun x => x ≠ id) ++ [id] }

/-- `focusWindow`: no-op when the id is absent or the window is minimized;
otherwise blur the previous window, bring the target to the front and mark
it focused. -/
def focusWindow (id : String) (m : Manager) : Manager :=
  match mapGet m.state.windows id with
  | none => m
  | some w =>
    if w.isMinimized then m
    else
      let st1 := blurPrevious id m.state
      let st2 := bringToFront id st1
      { m with state :=
        { st2 with
          windows := mapUpdate st2.windows id (fun p => { p with isFocused := true }),
          focusedWindowId := some id } }

/-- `destroyWindow`: removes the window from the registry, the stacking
order and the constraints map.  If the destroyed window was focused and an
eligible window remains, refocusing is deferred (`focusedWindowId` keeps
the stale id until the deferred `focusWindow` step runs); with no eligible
window left the focus becomes null.  `updateZIndices` is NOT called. -/
def destroyedState (id : String) (s : WMState) : WMState :=
  { s with
    windows := mapDelete s.windows id,
    windowOrder := s.windowOrder.filter (fun x => x ≠ id) }

/-- The focus outcome of `destroyWindow`: when the destroyed window was
focused and an eligible window remains, the deferred refocus is scheduled
and `focusedWindowId` is left (stale) until that step runs; with no
eligible window it becomes null; otherwise it is untouched. -/
def destroyNextFocus (id : String) (s : WMState) : Option String :=
  if s.focusedWindowId = some id then
    match getTopmost (destroyedState id s) with
    | some _ => s.focusedWindowId
    | none => none
  else s.focusedWindowId

def destroyWindow (id : String) (m : Manager) : Manager :=
  match mapGet m.state.windows id with
  | none => m
  | some _ =>
    { state := { destroyedState id m.state with
        focusedWindowId := destroyNextFocus id m.state },
      constraints := mapDelete m.constraints id }

/-- `minimizeWindow`: no-op when absent or already minimized; clears the
focused flag, and when the window was the focused one immediately (not
deferred) focuses the next topmost eligible window or clears focus. -/
def minimizedState (id : String) (s : WMState) : WMState :=
  { s with
    windows := mapUpdate s.windows id
      (fun p => { p with isMinimized := true, isFocused := false }) }

def minimizeWindow (id : String) (m : Manager) : Manager :=
  match mapGet m.state.windows id with
  | none => m
  | some w =>
    if w.isMinimized then m
    else
      let st1 := minimizedState id m.state
      if st1.focusedWindowId = some id then
        match getTopmost st1 with
        | some nw => focusWindow nw.id { m with state := st1 }
        | none => { m with state := { st1 with focusedWindowId := none } }
      else { m with state := st1 }

def maximizeWindow (id : String) (m : Manager) : Manager :=
  match mapGet m.state.windows id with
  | none => m
  | some w =>
    if w.isMaximized then m
    else
      { m with state :=
        { m.state with
          windows := mapUpdate m.state.windows id (fun p => { p with isMaximized := true }) } }

/-- `restoreWindow`: un-minimizing re-marks the window visible and focuses
it; otherwise un-maximizes; otherwise only the `restore` event fires. -/
def restoreWindow (id : String) (m : Manager) : Manager :=
  match mapGet m.state.windows id with
  | none => m
  | some w =>
    if w.isMinimized then
      let m1 :=
        { m with state :=
          { m.state with
            windows := mapUpdate m.state.windows id
              (fun p => { p with isMinimized := false, isVisible := true }) } }
      focusWindow id m1
    else if w.isMaximized then
      { m with state :=
        { m.state with
          windows := mapUpdate m.state.windows id (fun p => { p with isMaximized := false }) } }
    else m

/-- `moveWindow`: silently rejected when the constraint set says
`canMove === false` (only the literal `false` blocks). -/
def moveWindow (id : String) (pos : WindowPosition) (m : Manager) : Manager :=
  match mapGet m.state.windows id with
  | none => m
  | some _ =>
    if ((mapGet m.constraints id).bind (·.canMove)) = some false then m
    else
      { m with state :=
        { m.state with
          windows := mapUpdate m.state.windows id
            (fun p => { p with bounds := { p.bounds with position := pos } }) } }

/-- Size clamping of `resizeWindow`; a declared bound of `0` is falsy in
the source's `if (constraints.minWidth)` tests and is therefore ignored. -/
def clampSize (c : WindowConstraints) (sz : WindowSize) : WindowSize :=
  let w1 := match c.minWidth with
    | some mw => if mw = 0 then sz.width else max sz.width mw
    | none => sz.width
  let w2 := match c.maxWidth with
    | some mw => if mw = 0 then w1 else min w1 mw
    | none => w1
  let h1 := match c.minHeight with
    | some mh => if mh = 0 then sz.height else max sz.height mh
    | none => sz.height
  let h2 := match c.maxHeight with
    | some mh => if mh = 0 then h1 else min h1 mh
    | none => h1
  { width := w2, height := h2 }

def resizeWindow (id : String) (sz : WindowSize) (m : Manager) : Manager :=
  match mapGet m.state.windows id with
  | none => m
  | some _ =>
    if ((mapGet m.constraints id).bind (·.canResize)) = some false then m
    else
      let sz1 :=
        match mapGet m.constraints id with
        | some c => clampSize c sz
        | none => sz
      { m with state :=
        { m.state with
          windows := mapUpdate m.state.windows id
            (fun p => { p with bounds := { p.bounds with size := sz1 } }) } }

/-! ## Serialization (getSerializedState / loadSerializedState)

`getSerializedState` builds a plain object and `JSON.stringify`s it;
`loadSerializedState` `JSON.parse`s the string inside a try/catch and
wholesale-assigns the four fields of `state`, with no shape validation.
The stringify/parse string boundary is the identity on `JVal` (the
serialized object contains no `undefined` and no non-finite numbers, and
`JSON.parse (JSON.stringify v)` is structurally `v` for such values), so
the load is modelled on the parse result: `Except.error` stands for a
string `JSON.parse` throws on, `Except.ok v` for one that parses to `v`. -/

def encodeWindow (w : Window) : JVal :=
  JVal.obj
    ([("id", JVal.str w.id), ("appId", JVal.str w.appId),
      ("bounds", JVal.obj
        [("position", JVal.obj [("x", JVal.num w.bounds.position.x), ("y", JVal.num w.bounds.position.y)]),
         ("size", JVal.obj [("width", JVal.num w.bounds.size.width), ("height", JVal.num w.bounds.size.height)])]),
      ("zIndex", JVal.num w.zIndex), ("isFocused", JVal.bool w.isFocused),
      ("isMinimized", JVal.bool w.isMinimized), ("isMaximized", JVal.bool w.isMaximized),
      ("isVisible", JVal.bool w.isVisible)] ++
     (match w.metadata with
      | some md => [("metadata", md)]
      | none => []))

def encodeFid : Option String → JVal
  | some f => JVal.str f
  | none => JVal.null

/-- The JSON object `getSerializedState` stringifies: the window map as an
entry array (`Array.from(state.windows.entries())`), the stacking order,
the focused id and the z-index counter. -/
def encodeState (s : WMState) : JVal :=
  JVal.obj
    [("windows", JVal.arr (s.windows.map (fun p => JVal.arr [JVal.str p.1, encodeWindow p.2]))),
     ("windowOrder", JVal.arr (s.windowOrder.map JVal.str)),
     ("focusedWindowId", encodeFid s.focusedWindowId),
     ("nextZIndex", JVal.num s.nextZIndex)]

/-- JavaScript property access `v.k`: throws a TypeError on `null` or
`undefined`, returns the field of an object (or `undefined` when missing),
and `undefined` on every other value. -/
def jsField : JVal → String → Except Unit JVal
  | JVal.null, _ => Except.error ()
  | JVal.undef, _ => Except.error ()
  | JVal.obj fs, k => Except.ok (((fs.find? (fun p => p.1 = k)).map (·.2)).getD JVal.undef)
  | _, _ => Except.ok JVal.undef

/-- One iterator entry consumed by `new Map(...)`: the source snapshots
always hold two-element arrays whose first element is a string key; any
other shape raises a TypeError (non-string keys, which a JS Map would
accept but no snapshot produces, are folded into the error case). -/
def entryOf : JVal → Except Unit (String × JVal)
  | JVal.arr (JVal.str k :: rest) => Except.ok (k, rest.headD JVal.undef)
  | _ => Except.error ()

/-- Iterating `new Map(entryArray)`: entries are consumed left to right
and the first malformed one raises the TypeError. -/
def entriesOf : List JVal → Except Unit (List (String × JVal))
  | [] => Except.ok []
  | e :: rest =>
    match entryOf e with
    | Except.ok p =>
      match entriesOf rest with
      | Except.ok ps => Except.ok (p :: ps)
      | Except.error u => Except.error u
    | Except.error u => Except.error u

/-- `new Map(x)`: empty map on `undefined`/`null`, entry list on an array
of entries, TypeError on anything else. -/
def newMapArg : JVal → Except Unit (List (String × JVal))
  | JVal.undef => Except.ok []
  | JVal.null => Except.ok []
  | JVal.arr es => entriesOf es
  | _ => Except.error ()

/-- The in-memory `state` as observed after a `loadSerializedState`: raw
parse images.  A clean `WMState` embeds via `toJS`. -/
structure JSState where
  windows : List (String × JVal)
  windowOrder : JVal
  focusedWindowId : JVal
  nextZIndex : JVal

def toJS (s : WMState) : JSState :=
  { windows := s.windows.map (fun p => (p.1, encodeWindow p.2)),
    windowOrder := JVal.arr (s.windowOrder.map JVal.str),
    focusedWindowId := encodeFid s.focusedWindowId,
    nextZIndex := JVal.num s.nextZIndex }

/-- Field read that cannot throw any more once the parsed value is known
not to be `null` (the first access already succeeded). -/
def jsFieldD (v : JVal) (k : String) : JVal :=
  match jsField v k with
  | Except.ok x => x
  | Except.error _ => JVal.undef

/-- `loadSerializedState` on the parse outcome: any exception (a parse
failure, or a TypeError while evaluating `new Map(parsed.windows)` /
`parsed.windows`) lands in the catch, which only logs, leaving the prior
state; otherwise the four fields are assigned with whatever the parse
produced — there is no shape check and no error reported to the caller. -/
def loadSerializedState (j : Except Unit JVal) (prior : JSState) : JSState :=
  match j with
  | Except.error _ => prior
  | Except.ok v =>
    match jsField v "windows" with
    | Except.error _ => prior
    | Except.ok wv =>
      match newMapArg wv with
      | Except.error _ => prior
      | Except.ok entries =>
        { windows := entries,
          windowOrder := jsFieldD v "windowOrder",
          focusedWindowId := jsFieldD v "focusedWindowId",
          nextZIndex := jsFieldD v "nextZIndex" }

/-- The closure state at the JS level: the (possibly load-replaced)
`state` together with the `windowConstraints` map, which
`loadSerializedState` never touches. -/
structure ManagerJS where
  js : JSState
  constraints : List (String × WindowConstraints)

def loadFull (j : Except Unit JVal) (mj : ManagerJS) : ManagerJS :=
  { mj with js := loadSerializedState j mj.js }

def serializeManager (m : Manager) : JVal :=
  encodeState m.state

/-! ## Application lifecycle engine (application-registry.ts, lifecycle part) -/

inductive AppState where
  | loading | running | suspended | stopping | crashed
deriving DecidableEq

/-- The registry data `launch`/`removeWindowFromInstance` consult:
`manifest.capabilities.supportsBackgroundMode` and
`manifest.launchOptions?.singleton` (both optional booleans). -/
structure Manifest where
  supportsBackgroundMode : Option Bool := none
  singleton : Option Bool := none

/-- `getApplicationRegistry().getApplication`, abstracted as a lookup. -/
def AppRegistry : Type := String → Option Manifest

structure AppInstance where
  id : String
  appId : String
  state : AppState
  windowIds : List String
  startTime : Int
  lastActiveTime : Int
  context : JVal

structure LCState where
  instances : List (String × AppInstance)

inductive AppEvent where
  | launch (appId instanceId : String)
  | terminate (instanceId : String) (reason : Option String)
  | stateChange (instanceId : String) (src dst : AppState)
  | error (instanceId : String)
deriving DecidableEq

/-- `transitionState`: no-op unless the instance exists and currently is
in `src`; otherwise mutates the state and emits a `stateChange`. -/
def transitionState (iid : String) (src dst : AppState) (st : LCState) :
    LCState × List AppEvent :=
  match mapGet st.instances iid with
  | none => (st, [])
  | some inst =>
    if inst.state ≠ src then (st, [])
    else ({ instances := mapSet st.instances iid { inst with state := dst } },
          [AppEvent.stateChange iid src dst])

/-- `terminate`: transition to stopping, run the optional unmount hook
(failures are only logged — no state effect, so the hook is not
modelled), remove the instance, emit `terminate` with the reason.  The
message-handler map is dropped from the model (no claim touches it). -/
def terminate (iid : String) (reason : Option String) (st : LCState) :
    LCState × List AppEvent :=
  match mapGet st.instances iid with
  | none => (st, [])
  | some inst =>
    let r1 := transitionState iid inst.state AppState.stopping st
    ({ instances := mapDelete r1.1.instances iid }, r1.2 ++ [AppEvent.terminate iid reason])

/-- `removeWindowFromInstance`: filter the window id out; when the list
becomes empty and the registered descriptor does not declare (truthy)
background-mode support — including when the descriptor is missing —
terminate with reason "No windows remaining". -/
def removeWindowFromInstance (reg : AppRegistry) (iid wid : String) (st : LCState) :
    LCState × List AppEvent :=
  match mapGet st.instances iid with
  | none => (st, [])
  | some inst =>
    let inst1 := { inst with windowIds := inst.windowIds.filter (fun x => x ≠ wid) }
    let st1 : LCState := { instances := mapSet st.instances iid inst1 }
    if inst1.windowIds.length = 0 then
      if (match reg inst.appId with
          | some mf => mf.supportsBackgroundMode.getD false
          | none => false) then (st1, [])
      else terminate iid (some "No windows remaining") st1
    else (st1, [])

def addWindowToInstance (now : Int) (iid wid : String) (st : LCState) : LCState :=
  match mapGet st.instances iid with
  | none => st
  | some inst =>
    if wid ∈ inst.windowIds then st
    else
      { instances := mapSet st.instances iid
          { inst with windowIds := inst.windowIds ++ [wid], lastActiveTime := now } }

/-- `findInstanceByAppId`: first instance (in insertion order) whose
`appId` matches. -/
def findInstanceByAppId (appId : String) (st : LCState) : Option AppInstance :=
  (st.instances.find? (fun p => p.2.appId = appId)).map (·.2)

/-- The fresh-instance path of `launch`.  `freshId` stands for the
generated `appId-Date.now()-random` identity, `now` for `Date.now()`, and
`mount` for the outcome of the optional `onMount` hook (`none` = no hook,
`some true` = returns, `some false` = throws, sending the instance to
`crashed` with an `error` event).  The returned instance is the map entry
after all transitions (the source mutates one shared object). -/
def launchNewInstance (appId : String) (ctx : JVal) (now : Int) (freshId : String)
    (mount : Option Bool) (st : LCState) : AppInstance × LCState × List AppEvent :=
  let inst : AppInstance :=
    { id := freshId, appId := appId, state := AppState.loading, windowIds := [],
      startTime := now, lastActiveTime := now, context := ctx }
  let st1 : LCState := { instances := mapSet st.instances freshId inst }
  let r2 := transitionState freshId AppState.loading AppState.running st1
  let r3 :=
    match mount with
    | some false =>
      let r := transitionState freshId AppState.running AppState.crashed r2.1
      (r.1, r.2 ++ [AppEvent.error freshId])
    | _ => (r2.1, [])
  ((mapGet r3.1.instances freshId).getD inst, r3.1,
    AppEvent.launch appId freshId :: r2.2 ++ r3.2)

/-- `launch`: error when the app id is unregistered; when the descriptor
declares singleton launch and an instance of the app already exists,
`focusInstance` stamps its `lastActiveTime` and that instance is returned
with no event; otherwise a fresh instance is created. -/
def launch (reg : AppRegistry) (appId : String) (ctx : JVal) (now : Int)
    (freshId : String) (mount : Option Bool) (st : LCState) :
    Except String (AppInstance × LCState × List AppEvent) :=
  match reg appId with
  | none => Except.error ("Application \"" ++ appId ++ "\" not found in registry")
  | some mf =>
    if mf.singleton.getD false then
      match findInstanceByAppId appId st with
      | some ex =>
        let ex1 := { ex with lastActiveTime := now }
        Except.ok (ex1, { instances := mapSet st.instances ex.id ex1 }, [])
      | none => Except.ok (launchNewInstance appId ctx now freshId mount st)
    else Except.ok (launchNewInstance appId ctx now freshId mount st)

/-! ## Input system: gesture recognizers (gesture-recognizers.ts)

Positions are integer pairs in the scenarios; `Math.sqrt` comparisons are
carried out on squared distances (`sqrt q ≤ d ↔ q ≤ d²` and
`sqrt q ≥ d ↔ q ≥ d²` for `d ≥ 0`, exact for these magnitudes), so no
irrational arithmetic is needed.  Each recognizer's `recognize(events)`
reads only `events[events.length - 1]`, which inside `processEvent` is the
event just appended to `recentEvents`; the recognizers are therefore
modelled as state machines stepped on that event.  Gesture `id`
(randomized) and the `data` payload are not modelled; no property below
mentions them. -/

structure InputPosition where
  x : Int
  y : Int
deriving DecidableEq

structure InputContext where
  windowId : Option String := none
  appId : Option String := none
  elementType : Option String := none
  interactionMode : Option String := none
  priority : Option Int := none
deriving DecidableEq

inductive InEvType where
  | mouseDown | mouseUp | mouseMove | mouseClick
  | keyDown | keyUp
  | touchStart | touchMove | touchEnd
deriving DecidableEq

structure InputEvent where
  etype : InEvType
  timestamp : Int
  position : Option InputPosition := none
  context : Option InputContext := none

def isPressEv (e : InputEvent) : Bool :=
  e.etype = InEvType.mouseDown || e.etype = InEvType.touchStart

def isReleaseEv (e : InputEvent) : Bool :=
  e.etype = InEvType.mouseUp || e.etype = InEvType.touchEnd

def isMoveEv (e : InputEvent) : Bool :=
  e.etype = InEvType.mouseMove || e.etype = InEvType.touchMove

inductive GType where
  | tap | drag | swipe | longPress
deriving DecidableEq

/-- Gesture transition states; `ended` stands for the source's "end". -/
inductive GState where
  | start | update | ended | cancel
deriving DecidableEq

structure GestureEvent where
  gtype : GType
  gstate : GState
  timestamp : Int
  position : InputPosition
  context : Option InputContext
deriving DecidableEq

def sqDist (p q : InputPosition) : Int :=
  (q.x - p.x) * (q.x - p.x) + (q.y - p.y) * (q.y - p.y)

/-- `distance(p, q) ≤ d` via squares. -/
def distLe (p q : InputPosition) (d : Int) : Bool :=
  sqDist p q ≤ d * d

/-- `distance(p, q) ≥ d` via squares. -/
def distGe (p q : InputPosition) (d : Int) : Bool :=
  sqDist p q ≥ d * d

def evPos (e : InputEvent) : InputPosition :=
  e.position.getD { x := 0, y := 0 }

/-- Tap recognizer step (`createTapGestureRecognizer`, defaults
`maxDistance = 10`, `maxDuration = 300`): a press with no tracked start
emits a tap "start" transition; a release with a tracked start resets and
emits the completed tap only when duration and movement pass (a "cancel"
gesture object is built in the source but `null` is returned). -/
def tapRecognize (maxDistance maxDuration : Int) (st : Option InputEvent)
    (e : InputEvent) : Option InputEvent × Option GestureEvent :=
  if isPressEv e && st.isNone then
    (some e, some { gtype := GType.tap, gstate := GState.start, timestamp := e.timestamp,
                    position := evPos e, context := e.context })
  else
    match st with
    | some s =>
      if isReleaseEv e then
        let durOk := e.timestamp - s.timestamp ≤ maxDuration
        let distOk :=
          match s.position, e.position with
          | some p1, some p2 => distLe p1 p2 maxDistance
          | _, _ => (0 : Int) ≤ maxDistance
        (none,
         if durOk && distOk then
           some { gtype := GType.tap, gstate := GState.ended, timestamp := e.timestamp,
                  position := evPos e, context := e.context }
         else none)
      else (st, none)
    | none => (st, none)

structure DragState where
  start : Option InputEvent := none
  isDragging : Bool := false
deriving Inhabited

/-- Drag recognizer step (`createDragGestureRecognizer`, default
`minDistance = 10`): press begins tracking; a move at or beyond the
threshold emits "start" once, further moves emit "update"; release while
dragging emits "end" and resets.  A release before the threshold leaves
the tracked start in place, exactly as the source does. -/
def dragRecognize (minDistance : Int) (st : DragState) (e : InputEvent) :
    DragState × Option GestureEvent :=
  if isPressEv e && st.start.isNone then
    ({ start := some e, isDragging := false }, none)
  else
    match st.start with
    | some s =>
      if isMoveEv e then
        let distOk :=
          match s.position, e.position with
          | some p1, some p2 => distGe p1 p2 minDistance
          | _, _ => (0 : Int) ≥ minDistance
        if !st.isDragging && distOk then
          ({ st with isDragging := true },
           some { gtype := GType.drag, gstate := GState.start, timestamp := e.timestamp,
                  position := evPos e, context := e.context })
        else if st.isDragging then
          (st, some { gtype := GType.drag, gstate := GState.update, timestamp := e.timestamp,
                      position := evPos e, context := e.context })
        else (st, none)
      else if isReleaseEv e && st.isDragging then
        ({ start := none, isDragging := false },
         some { gtype := GType.drag, gstate := GState.ended, timestamp := e.timestamp,
                position := evPos e, context := e.context })
      else (st, none)
    | none => (st, none)

/-- Swipe recognizer step (`createSwipeGestureRecognizer`, defaults
`minDistance = 50`, `maxDuration = 500`, `minVelocity = 0.1`): on release
the attempt completes only when duration, distance and average velocity
all pass; either way tracking resets.  `velocity ≥ 0.1` is
`100·dist² ≥ duration²` when `duration > 0`, else velocity is `0` and
fails.  Direction bucketing lives inside the valid branch and is not
modelled (the gesture model carries no payload). -/
def swipeRecognize (minDistance maxDuration : Int) (st : Option InputEvent)
    (e : InputEvent) : Option InputEvent × Option GestureEvent :=
  if isPressEv e && st.isNone then (some e, none)
  else
    match st with
    | some s =>
      if isReleaseEv e then
        let duration := e.timestamp - s.timestamp
        let dsq :=
          match s.position, e.position with
          | some p1, some p2 => sqDist p1 p2
          | _, _ => 0
        let valid := duration ≤ maxDuration && dsq ≥ minDistance * minDistance &&
          duration > 0 && 100 * dsq ≥ duration * duration
        (none,
         if valid then
           some { gtype := GType.swipe, gstate := GState.ended, timestamp := e.timestamp,
                  position := evPos e, context := e.context }
         else none)
      else (st, none)
    | none => (st, none)

structure LongPressState where
  start : Option InputEvent := none
  triggered : Bool := false
deriving Inhabited

/-- Long-press recognizer step (`createLongPressGestureRecognizer`,
defaults `duration = 500`, `maxDistance = 10`).  The press arms a
500-time-unit `setTimeout` that would set `triggered`; within the
synchronous traces considered here (press to release under 500 units) the
timer never fires, so `triggered` stays false and only the movement-cancel
and release paths act. -/
def longPressRecognize (maxDistance : Int) (st : LongPressState) (e : InputEvent) :
    LongPressState × Option GestureEvent :=
  if isPressEv e && st.start.isNone then
    ({ start := some e, triggered := false }, none)
  else
    match st.start with
    | some s =>
      if isMoveEv e then
        let tooFar :=
          match s.position, e.position with
          | some p1, some p2 => !distLe p1 p2 maxDistance
          | _, _ => !((0 : Int) ≤ maxDistance)
        if tooFar then ({ start := none, triggered := false }, none) else (st, none)
      else if isReleaseEv e then
        ({ start := none, triggered := false },
         if st.triggered then
           some { gtype := GType.longPress, gstate := GState.ended, timestamp := e.timestamp,
                  position := evPos e, context := e.context }
         else none)
      else (st, none)
    | none => (st, none)

/-- Combined private state of the four default recognizers, in the
insertion order of `defaultGestureRecognizers`. -/
structure RecognizerStates where
  tap : Option InputEvent := none
  drag : DragState := {}
  swipe : Option InputEvent := none
  longPress : LongPressState := {}

/-- One `recognizeGestures` pass over the default recognizers (no custom
gesture definitions are registered in the scenarios considered), with the
recognizers instantiated at their default thresholds. -/
def recognizeStep (rs : RecognizerStates) (e : InputEvent) :
    RecognizerStates × List GestureEvent :=
  let t := tapRecognize 10 300 rs.tap e
  let d := dragRecognize 10 rs.drag e
  let s := swipeRecognize 50 500 rs.swipe e
  let l := longPressRecognize 10 rs.longPress e
  ({ tap := t.1, drag := d.1, swipe := s.1, longPress := l.1 },
   [t.2, d.2, s.2, l.2].reduceOption)

/-- The gesture stream `processEvent` emits (`gesture.recognized`
notifications, in order) when the given events are fed to the router one
by one. -/
def processGestures (es : List InputEvent) : List GestureEvent :=
  (es.foldl (fun acc e =>
    let r := recognizeStep acc.1 e
    (r.1, acc.2 ++ r.2)) ({ : RecognizerStates}, [])).2

/-! ## Input system: context matching (interaction-registry.ts and
keyboard-shortcut-registry) -/

/-- One field test `if (filter.f && filter.f !== event.f) return false`:
an unset field matches anything, and so does the empty string (falsy in
the source); a nonempty value must equal the event's field. -/
def fieldFilter (f v : Option String) : Bool :=
  match f with
  | none => true
  | some s => if s = "" then true else v = some s

/-- `contextMatches` of the interaction registry: an event without a
context matches nothing; otherwise windowId, appId, elementType and
interactionMode are each tested. -/
def interactionContextMatches (hc : InputContext) (ec : Option InputContext) : Bool :=
  match ec with
  | none => false
  | some e =>
    fieldFilter hc.windowId e.windowId && fieldFilter hc.appId e.appId &&
    fieldFilter hc.elementType e.elementType &&
    fieldFilter hc.interactionMode e.interactionMode

/-- `contextMatches` of the keyboard shortcut registry: an absent filter
is a global shortcut and matches everything; a present filter needs an
event context and tests windowId, appId and interactionMode (but not
elementType). -/
def shortcutContextMatches (sc : Option InputContext) (ec : Option InputContext) : Bool :=
  match sc with
  | none => true
  | some h =>
    match ec with
    | none => false
    | some e =>
      fieldFilter h.windowId e.windowId && fieldFilter h.appId e.appId &&
      fieldFilter h.interactionMode e.interactionMode

/-! ## Reachability for the window manager

One constructor per public state-changing operation.  The deferred
auto-focus of `createWindow` and the deferred refocus of `destroyWindow`
execute `api.focusWindow`, which is the `focus` step, so every state
"after deferred focus steps run" is reachable here.  The parameter `P`
restricts the identities passed to `createWindow` (`fun _ => True` places
no restriction). -/

inductive ReachableP (P : String → Prop) : Manager → Prop where
  | init : ReachableP P initManager
  | create (m : Manager) (id appId : String) (b : Option WindowBounds)
      (c : Option WindowConstraints) (md : Option JVal) :
      ReachableP P m → P id → ReachableP P (createWindow id appId b c md m).2
  | destroy (m : Manager) (id : String) :
      ReachableP P m → ReachableP P (destroyWindow id m)
  | focus (m : Manager) (id : String) :
      ReachableP P m → ReachableP P (focusWindow id m)
  | minimize (m : Manager) (id : String) :
      ReachableP P m → ReachableP P (minimizeWindow id m)
  | maximize (m : Manager) (id : String) :
      ReachableP P m → ReachableP P (maximizeWindow id m)
  | restore (m : Manager) (id : String) :
      ReachableP P m → ReachableP P (restoreWindow id m)
  | move (m : Manager) (id : String) (pos : WindowPosition) :
      ReachableP P m → ReachableP P (moveWindow id pos m)
  | resize (m : Manager) (id : String) (sz : WindowSize) :
      ReachableP P m → ReachableP P (resizeWindow id sz m)

/-- States reachable by the public operations with arbitrary window ids. -/
def Reachable (m : Manager) : Prop :=
  ReachableP (fun _ => True) m

/-- States reachable when every created window id is nonempty. -/
def ReachableNE (m : Manager) : Prop :=
  ReachableP (fun id => id ≠ "") m

/-! ## Decidable checkers for the claimed invariants -/

/-- The stacking order lists exactly the live window identities, without
duplicates. -/
def permCheck (s : WMState) : Bool :=
  decide s.windowOrder.Nodup &&
  s.windowOrder.all (fun id => (mapGet s.windows id).isSome) &&
  s.windows.all (fun p => s.windowOrder.contains p.1)

/-- Starting from position `i`, every listed window exists and carries
`zIndex = position + 1`. -/
def zAll (i : Int) : List String → List (String × Window) → Bool
  | [], _ => true
  | id :: rest, ws =>
    (match mapGet ws id with
     | some w => w.zIndex = i + 1
     | none => false) && zAll (i + 1) rest ws

/-- The window at 0-based stacking position `i` has `zIndex = i + 1`. -/
def zCheck (s : WMState) : Bool :=
  zAll 0 s.windowOrder s.windows

/-- Number of windows whose `isFocused` flag is set. -/
def focusedCount (s : WMState) : Nat :=
  s.windows.countP (fun p => p.2.isFocused)

/-! ## Association-list lemmas -/

theorem mapGet_mapSet {α : Type} (m : List (String × α)) (k k' : String) (v : α) :
    mapGet (mapSet m k v) k' = if k' = k then some v else mapGet m k' := by
  induction m with
  | nil =>
    by_cases hk : k' = k
    · simp [mapSet, mapGet, hk]
    · have hk2 : ¬(k = k') := fun h => hk h.symm
      simp [mapSet, mapGet, hk, hk2]
  | cons p rest ih =>
    by_cases hp : p.1 = k <;> by_cases hq : p.1 = k'
    · have hk : k' = k := hq.symm.trans hp
      simp [mapSet, mapGet, hp, hq, hk]
    · have hk : ¬(k' = k) := fun h => hq (hp.trans h.symm)
      have hk2 : ¬(k = k') := fun h => hk h.symm
      simp [mapSet, mapGet, hp, hq, hk, hk2]
    · have hk : ¬(k' = k) := fun h => hp (hq.trans h)
      have hk2 : ¬(k = k') := fun h => hk h.symm
      simp [mapSet, mapGet, hp, hq, hk, hk2]
    · simp [mapSet, mapGet, hp, hq, ih]

theorem mapGet_mapUpdate {α : Type} (m : List (String × α)) (k k' : String) (f : α → α) :
    mapGet (mapUpdate m k f) k' =
      if k' = k then (mapGet m k).map f else mapGet m k' := by
  induction m with
  | nil => by_cases hk : k' = k <;> simp [mapUpdate, mapGet, hk]
  | cons p rest ih =>
    by_cases hp : p.1 = k <;> by_cases hq : p.1 = k'
    · have hk : k' = k := hq.symm.trans hp
      simp [mapUpdate, mapGet, hp, hq, hk]
    · have hk : ¬(k' = k) := fun h => hq (hp.trans h.symm)
      have hk2 : ¬(k = k') := fun h => hk h.symm
      simp [mapUpdate, mapGet, hp, hq, hk, hk2, ih]
    · have hk : ¬(k' = k) := fun h => hp (hq.trans h)
      have hk2 : ¬(k = k') := fun h => hk h.symm
      simp [mapUpdate, mapGet, hp, hq, hk, hk2]
    · simp [mapUpdate, mapGet, hp, hq, ih]

theorem mapGet_mapDelete {α : Type} (m : List (String × α)) (k k' : String) :
    mapGet (mapDelete m k) k' = if k' = k then none else mapGet m k' := by
  induction m with
  | nil => by_cases hk : k' = k <;> simp [mapDelete, mapGet, hk]
  | cons p rest ih =>
    by_cases hp : p.1 = k <;> by_cases hq : p.1 = k'
    · have hk : k' = k := hq.symm.trans hp
      subst hk
      simp [mapDelete, mapGet, hp, ih]
    · have hk : ¬(k' = k) := fun h => hq (hp.trans h.symm)
      have hk2 : ¬(k = k') := fun h => hk h.symm
      simp [mapDelete, mapGet, hp, hq, hk, hk2, ih]
    · have hk : ¬(k' = k) := fun h => hp (hq.trans h)
      have hk2 : ¬(k = k') := fun h => hk h.symm
      simp [mapDelete, mapGet, hp, hq, hk, hk2]
    · simp [mapDelete, mapGet, hp, hq, ih]

theorem mapSet_absent {α : Type} (m : List (String × α)) (k : String) (v : α)
    (h : mapGet m k = none) : mapSet m k v = m ++ [(k, v)] := by
  induction m with
  | nil => simp [mapSet]
  | cons p rest ih =>
    simp only [mapGet] at h
    by_cases hp : p.1 = k
    · simp [hp] at h
    · simp only [mapSet, if_neg hp, List.cons_append, List.cons.injEq, true_and]
      exact ih (by simpa [hp] using h)

theorem mapGet_eq_none_iff {α : Type} (m : List (String × α)) (k : String) :
    mapGet m k = none ↔ k ∉ m.map Prod.fst := by
  induction m with
  | nil => simp [mapGet]
  | cons p rest ih =>
    by_cases hp : p.1 = k
    · simp [mapGet, hp]
    · have hp2 : ¬(k = p.1) := fun h => hp h.symm
      simp [mapGet, hp, hp2, ih]

theorem mapGet_isSome_of_mem {α : Type} (m : List (String × α)) (p : String × α)
    (h : p ∈ m) : (mapGet m p.1).isSome := by
  induction m with
  | nil => simp at h
  | cons q rest ih =>
    rcases List.mem_cons.mp h with h1 | h2
    · subst h1; simp [mapGet]
    · by_cases hq : q.1 = p.1 <;> simp [mapGet, hq, ih h2]

theorem mapGet_of_mem_nodup {α : Type} (m : List (String × α)) (p : String × α)
    (hn : (m.map Prod.fst).Nodup) (h : p ∈ m) : mapGet m p.1 = some p.2 := by
  induction m with
  | nil => simp at h
  | cons q rest ih =>
    simp only [List.map_cons, List.nodup_cons] at hn
    rcases List.mem_cons.mp h with h1 | h2
    · subst h1; simp [mapGet]
    · have hne : q.1 ≠ p.1 := by
        intro he
        exact hn.1 (he ▸ List.mem_map_of_mem Prod.fst h2)
      simp [mapGet, hne, ih hn.2 h2]

theorem keys_mapUpdate {α : Type} (m : List (String × α)) (k : String) (f : α → α) :
    (mapUpdate m k f).map Prod.fst = m.map Prod.fst := by
  induction m with
  | nil => rfl
  | cons p rest ih =>
    by_cases hp : p.1 = k <;> simp [mapUpdate, hp, ih]

theorem isSome_mapUpdate {α : Type} (m : List (String × α)) (k k' : String) (f : α → α) :
    (mapGet (mapUpdate m k f) k').isSome = (mapGet m k').isSome := by
  rw [mapGet_mapUpdate]
  by_cases hk : k' = k <;> simp [hk]

/-! ## Invariants of the window manager state -/

/-- The stacking order has no duplicates, the window map has no duplicate
keys, and the order contains exactly the identities of live windows. -/
def BaseInv (s : WMState) : Prop :=
  s.windowOrder.Nodup ∧ (s.windows.map Prod.fst).Nodup ∧
  (∀ id, id ∈ s.windowOrder ↔ (mapGet s.windows id).isSome)

/-- Every live window is visible and has a nonempty identity; a focused
window is not minimized and is the one `focusedWindowId` names; a recorded
focused identity is nonempty. -/
def FocusInv (s : WMState) : Prop :=
  (∀ k w, mapGet s.windows k = some w → w.isVisible = true ∧ k ≠ "") ∧
  (∀ k w, mapGet s.windows k = some w → w.isFocused = true →
    w.isMinimized = false ∧ s.focusedWindowId = some k) ∧
  (∀ f, s.focusedWindowId = some f → f ≠ "")

/-- `applyZ` either leaves a key's entry alone or only rewrites its
z-index. -/
theorem mapGet_applyZ_cases (l : List String) (i : Int)
    (ws : List (String × Window)) (k : String) :
    mapGet (applyZ i l ws) k = mapGet ws k ∨
    ∃ j : Int, mapGet (applyZ i l ws) k =
      (mapGet ws k).map (fun w => { w with zIndex := j }) := by
  induction l generalizing i ws with
  | nil => exact Or.inl rfl
  | cons a rest ih =>
    rw [applyZ]
    rcases ih (i + 1) (mapUpdate ws a (fun w => { w with zIndex := i + 1 })) with h | ⟨j, h⟩
    · rw [h, mapGet_mapUpdate]
      by_cases hk : k = a
      · exact Or.inr ⟨i + 1, by rw [if_pos hk, hk]⟩
      · exact Or.inl (by rw [if_neg hk])
    · rw [h, mapGet_mapUpdate]
      by_cases hk : k = a
      · refine Or.inr ⟨j, ?_⟩
        rw [if_pos hk, hk, Option.map_map]
        exact Option.map_congr (fun w _ => rfl)
      · exact Or.inr ⟨j, by rw [if_neg hk]⟩

theorem isSome_applyZ (l : List String) (i : Int)
    (ws : List (String × Window)) (k : String) :
    (mapGet (applyZ i l ws) k).isSome = (mapGet ws k).isSome := by
  rcases mapGet_applyZ_cases l i ws k with h | ⟨j, h⟩ <;> simp [h]

theorem keys_applyZ (l : List String) (i : Int) (ws : List (String × Window)) :
    (applyZ i l ws).map Prod.fst = ws.map Prod.fst := by
  induction l generalizing i ws with
  | nil => rfl
  | cons a rest ih =>
    rw [applyZ, ih, keys_mapUpdate]

/-- Any window view that ignores `zIndex` is unchanged by `applyZ`. -/
theorem view_applyZ {β : Type} (g : Window → β)
    (hg : ∀ w j, g { w with zIndex := j } = g w)
    (l : List String) (i : Int) (ws : List (String × Window)) (k : String) :
    (mapGet (applyZ i l ws) k).map g = (mapGet ws k).map g := by
  rcases mapGet_applyZ_cases l i ws k with h | ⟨j, h⟩
  · rw [h]
  · rw [h, Option.map_map]
    exact Option.map_congr (fun w _ => hg w j)

/-! ### The blur step -/

theorem blurPrevious_windowOrder (id : String) (s : WMState) :
    (blurPrevious id s).windowOrder = s.windowOrder := by
  unfold blurPrevious
  cases s.focusedWindowId with
  | none => rfl
  | some fid => by_cases h : fid ≠ "" ∧ fid ≠ id <;> simp [h]

theorem blurPrevious_focusedWindowId (id : String) (s : WMState) :
    (blurPrevious id s).focusedWindowId = s.focusedWindowId := by
  unfold blurPrevious
  cases hf : s.focusedWindowId with
  | none => exact hf
  | some fid =>
    by_cases h : fid ≠ "" ∧ fid ≠ id
    · simp [h]
    · simp only [if_neg h]
      exact hf

theorem blurPrevious_nextZIndex (id : String) (s : WMState) :
    (blurPrevious id s).nextZIndex = s.nextZIndex := by
  unfold blurPrevious
  cases s.focusedWindowId with
  | none => rfl
  | some fid => by_cases h : fid ≠ "" ∧ fid ≠ id <;> simp [h]

theorem blurPrevious_windows_cases (id : String) (s : WMState) :
    (blurPrevious id s).windows = s.windows ∨
    ∃ fid, s.focusedWindowId = some fid ∧ fid ≠ "" ∧ fid ≠ id ∧
      (blurPrevious id s).windows =
        mapUpdate s.windows fid (fun p => { p with isFocused := false }) := by
  unfold blurPrevious
  cases hf : s.focusedWindowId with
  | none => exact Or.inl rfl
  | some fid =>
    by_cases h : fid ≠ "" ∧ fid ≠ id
    · exact Or.inr ⟨fid, rfl, h.1, h.2, by simp [h]⟩
    · exact Or.inl (by simp [h])

theorem isSome_blurPrevious (id : String) (s : WMState) (k : String) :
    (mapGet (blurPrevious id s).windows k).isSome = (mapGet s.windows k).isSome := by
  rcases blurPrevious_windows_cases id s with h | ⟨fid, _, _, _, h⟩
  · rw [h]
  · rw [h, isSome_mapUpdate]

theorem keys_blurPrevious (id : String) (s : WMState) :
    (blurPrevious id s).windows.map Prod.fst = s.windows.map Prod.fst := by
  rcases blurPrevious_windows_cases id s with h | ⟨fid, _, _, _, h⟩
  · rw [h]
  · rw [h, keys_mapUpdate]

theorem baseInv_blurPrevious (id : String) (s : WMState) (h : BaseInv s) :
    BaseInv (blurPrevious id s) := by
  obtain ⟨h1, h2, h3⟩ := h
  refine ⟨?_, ?_, ?_⟩
  · rw [blurPrevious_windowOrder]; exact h1
  · rw [keys_blurPrevious]; exact h2
  · intro jd
    rw [blurPrevious_windowOrder, isSome_blurPrevious]
    exact h3 jd

theorem keys_mapDelete {α : Type} (m : List (String × α)) (k : String) :
    (mapDelete m k).map Prod.fst = (m.map Prod.fst).filter (fun x => x ≠ k) := by
  induction m with
  | nil => rfl
  | cons p rest ih =>
    by_cases hp : p.1 = k <;> simp [mapDelete, List.filter_cons, hp, ih]

/-- `BaseInv` only looks at the order, the key list and the lookup domain. -/
theorem baseInv_congr {s s2 : WMState} (h : BaseInv s)
    (ho : s2.windowOrder = s.windowOrder)
    (hk : s2.windows.map Prod.fst = s.windows.map Prod.fst)
    (hs : ∀ k, (mapGet s2.windows k).isSome = (mapGet s.windows k).isSome) :
    BaseInv s2 := by
  obtain ⟨h1, h2, h3⟩ := h
  refine ⟨ho ▸ h1, hk ▸ h2, fun jd => ?_⟩
  rw [ho, hs]
  exact h3 jd

theorem nodup_moveToEnd (l : List String) (id : String) (h : l.Nodup) :
    (l.filter (fun x => x ≠ id) ++ [id]).Nodup := by
  rw [List.nodup_append]
  refine ⟨h.filter _, List.nodup_singleton id, ?_⟩
  intro a ha hb
  rw [List.mem_singleton] at hb
  rcases List.mem_filter.mp ha with ⟨_, ha2⟩
  have ha3 : a ≠ id := by simpa using ha2
  exact ha3 hb

theorem mem_moveToEnd (l : List String) (id a : String) :
    a ∈ l.filter (fun x => x ≠ id) ++ [id] ↔ a ∈ l ∨ a = id := by
  simp only [List.mem_append, List.mem_filter, List.mem_singleton, decide_eq_true_eq]
  by_cases ha : a = id
  · simp [ha]
  · simp [ha]

theorem baseInv_bringToFront (id : String) (s : WMState) (h : BaseInv s) :
    BaseInv (bringToFront id s) := by
  unfold bringToFront
  cases hg : mapGet s.windows id with
  | none => exact h
  | some w =>
    obtain ⟨h1, h2, h3⟩ := h
    simp only [updateZIndices]
    refine ⟨nodup_moveToEnd _ _ h1, ?_, fun jd => ?_⟩
    · rw [keys_applyZ]
      exact h2
    · rw [isSome_applyZ, mem_moveToEnd]
      constructor
      · rintro (hj | hj)
        · exact (h3 jd).mp hj
        · subst hj
          simp [hg]
      · intro hj
        exact Or.inl ((h3 jd).mpr hj)

theorem baseInv_focusWindow (id : String) (m : Manager) (h : BaseInv m.state) :
    BaseInv (focusWindow id m).state := by
  unfold focusWindow
  cases hg : mapGet m.state.windows id with
  | none => exact h
  | some w =>
    by_cases hmin : w.isMinimized
    · simp only [if_pos hmin]
      exact h
    · simp only [if_neg hmin]
      have hb : BaseInv (bringToFront id (blurPrevious id m.state)) :=
        baseInv_bringToFront _ _ (baseInv_blurPrevious _ _ h)
      exact baseInv_congr hb rfl (keys_mapUpdate _ _ _) (fun k => isSome_mapUpdate _ _ _ _)

theorem baseInv_createWindow (id appId : String) (b : Option WindowBounds)
    (c : Option WindowConstraints) (md : Option JVal) (m : Manager)
    (h : BaseInv m.state) : BaseInv (createWindow id appId b c md m).2.state := by
  unfold createWindow
  by_cases hg : (mapGet m.state.windows id).isSome
  · simp only [if_pos hg]
    exact h
  · simp only [if_neg hg]
    obtain ⟨h1, h2, h3⟩ := h
    have hnone : mapGet m.state.windows id = none := by
      cases hq : mapGet m.state.windows id with
      | none => rfl
      | some _ => rw [hq] at hg; simp at hg
    have hnotmem : id ∉ m.state.windowOrder := fun hmem => by
      have := (h3 id).mp hmem
      rw [hnone] at this
      simp at this
    have hnotkey : id ∉ m.state.windows.map Prod.fst :=
      (mapGet_eq_none_iff _ _).mp hnone
    refine ⟨?_, ?_, fun jd => ?_⟩
    · rw [List.nodup_append]
      refine ⟨h1, List.nodup_singleton id, fun a ha hb => ?_⟩
      have hab : a = id := List.mem_singleton.mp hb
      subst hab
      exact hnotmem ha
    · rw [mapSet_absent _ _ _ hnone, List.map_append, List.nodup_append]
      refine ⟨h2, List.nodup_singleton _, fun a ha hb => ?_⟩
      have hab : a = id := by simpa using hb
      subst hab
      exact hnotkey ha
    · rw [List.mem_append, List.mem_singleton, mapGet_mapSet]
      by_cases hj : jd = id
      · simp [hj]
      · simp only [if_neg hj]
        simp [hj, h3 jd]

theorem baseInv_destroyWindow (id : String) (m : Manager) (h : BaseInv m.state) :
    BaseInv (destroyWindow id m).state := by
  unfold destroyWindow
  cases hg : mapGet m.state.windows id with
  | none => exact h
  | some w =>
    obtain ⟨h1, h2, h3⟩ := h
    simp only [destroyedState]
    refine ⟨h1.filter _, ?_, fun jd => ?_⟩
    · rw [keys_mapDelete]
      exact h2.filter _
    · rw [List.mem_filter, mapGet_mapDelete, decide_eq_true_eq]
      by_cases hj : jd = id
      · simp [hj]
      · simp only [if_neg hj]
        simp [hj, h3 jd]

theorem baseInv_minimizeWindow (id : String) (m : Manager) (h : BaseInv m.state) :
    BaseInv (minimizeWindow id m).state := by
  unfold minimizeWindow
  cases hg : mapGet m.state.windows id with
  | none => exact h
  | some w =>
    by_cases hmin : w.isMinimized
    · simp only [if_pos hmin]
      exact h
    · simp only [if_neg hmin]
      have hst1 : BaseInv (minimizedState id m.state) :=
        baseInv_congr h rfl (keys_mapUpdate _ _ _) (fun k => isSome_mapUpdate _ _ _ _)
      by_cases hfid : (minimizedState id m.state).focusedWindowId = some id
      · simp only [if_pos hfid]
        cases htop : getTopmost (minimizedState id m.state) with
        | some nw => exact baseInv_focusWindow _ _ hst1
        | none => exact baseInv_congr hst1 rfl rfl (fun k => rfl)
      · simp only [if_neg hfid]
        exact hst1

theorem baseInv_maximizeWindow (id : String) (m : Manager) (h : BaseInv m.state) :
    BaseInv (maximizeWindow id m).state := by
  unfold maximizeWindow
  cases hg : mapGet m.state.windows id with
  | none => exact h
  | some w =>
    by_cases hmax : w.isMaximized
    · simp only [if_pos hmax]
      exact h
    · simp only [if_neg hmax]
      exact baseInv_congr h rfl (keys_mapUpdate _ _ _) (fun k => isSome_mapUpdate _ _ _ _)

theorem baseInv_restoreWindow (id : String) (m : Manager) (h : BaseInv m.state) :
    BaseInv (restoreWindow id m).state := by
  unfold restoreWindow
  cases hg : mapGet m.state.windows id with
  | none => exact h
  | some w =>
    by_cases hmin : w.isMinimized
    · simp only [if_pos hmin]
      exact baseInv_focusWindow _ _
        (baseInv_congr h rfl (keys_mapUpdate _ _ _) (fun k => isSome_mapUpdate _ _ _ _))
    · simp only [if_neg hmin]
      by_cases hmax : w.isMaximized
      · simp only [if_pos hmax]
        exact baseInv_congr h rfl (keys_mapUpdate _ _ _) (fun k => isSome_mapUpdate _ _ _ _)
      · simp only [if_neg hmax]
        exact h

theorem baseInv_moveWindow (id : String) (pos : WindowPosition) (m : Manager)
    (h : BaseInv m.state) : BaseInv (moveWindow id pos m).state := by
  unfold moveWindow
  cases hg : mapGet m.state.windows id with
  | none => exact h
  | some w =>
    by_cases hc : ((mapGet m.constraints id).bind (·.canMove)) = some false
    · simp only [if_pos hc]
      exact h
    · simp only [if_neg hc]
      exact baseInv_congr h rfl (keys_mapUpdate _ _ _) (fun k => isSome_mapUpdate _ _ _ _)

theorem baseInv_resizeWindow (id : String) (sz : WindowSize) (m : Manager)
    (h : BaseInv m.state) : BaseInv (resizeWindow id sz m).state := by
  unfold resizeWindow
  cases hg : mapGet m.state.windows id with
  | none => exact h
  | some w =>
    by_cases hc : ((mapGet m.constraints id).bind (·.canResize)) = some false
    · simp only [if_pos hc]
      exact h
    · simp only [if_neg hc]
      exact baseInv_congr h rfl (keys_mapUpdate _ _ _) (fun k => isSome_mapUpdate _ _ _ _)

/-- Every reachable state — for any creation-id discipline — satisfies the
base stacking invariant. -/
theorem reachableP_baseInv (P : String → Prop) (m : Manager)
    (h : ReachableP P m) : BaseInv m.state := by
  induction h with
  | init => exact ⟨List.nodup_nil, List.nodup_nil, fun id => by simp [initManager, mapGet]⟩
  | create m id appId b c md hr hp ih => exact baseInv_createWindow _ _ _ _ _ _ ih
  | destroy m id hr ih => exact baseInv_destroyWindow _ _ ih
  | focus m id hr ih => exact baseInv_focusWindow _ _ ih
  | minimize m id hr ih => exact baseInv_minimizeWindow _ _ ih
  | maximize m id hr ih => exact baseInv_maximizeWindow _ _ ih
  | restore m id hr ih => exact baseInv_restoreWindow _ _ ih
  | move m id pos hr ih => exact baseInv_moveWindow _ _ _ ih
  | resize m id sz hr ih => exact baseInv_resizeWindow _ _ _ ih

/-! ### Equation lemmas for the blur and raise steps -/

theorem blurPrevious_none (id : String) (s : WMState)
    (h : s.focusedWindowId = none) : blurPrevious id s = s := by
  unfold blurPrevious
  rw [h]

theorem blurPrevious_skip (id fid : String) (s : WMState)
    (h : s.focusedWindowId = some fid) (hc : ¬(fid ≠ "" ∧ fid ≠ id)) :
    blurPrevious id s = s := by
  unfold blurPrevious
  rw [h]
  simp [hc]

theorem blurPrevious_app (id fid : String) (s : WMState)
    (h : s.focusedWindowId = some fid) (hc : fid ≠ "" ∧ fid ≠ id) :
    blurPrevious id s =
      { s with windows := mapUpdate s.windows fid (fun p => { p with isFocused := false }) } := by
  unfold blurPrevious
  rw [h]
  simp [hc.1, hc.2]

theorem bringToFront_focusedWindowId (id : String) (s : WMState) :
    (bringToFront id s).focusedWindowId = s.focusedWindowId := by
  unfold bringToFront
  cases hg : mapGet s.windows id with
  | none => rfl
  | some w => simp [updateZIndices]

/-- Any window view that ignores `zIndex` is unchanged by `bringToFront`. -/
theorem view_bringToFront {β : Type} (g : Window → β)
    (hg : ∀ w j, g { w with zIndex := j } = g w) (id : String) (s : WMState) (k : String) :
    (mapGet (bringToFront id s).windows k).map g = (mapGet s.windows k).map g := by
  unfold bringToFront
  cases hq : mapGet s.windows id with
  | none => rfl
  | some w =>
    simp only [updateZIndices]
    exact view_applyZ g hg _ _ _ _

theorem isSome_bringToFront (id : String) (s : WMState) (k : String) :
    (mapGet (bringToFront id s).windows k).isSome = (mapGet s.windows k).isSome := by
  unfold bringToFront
  cases hq : mapGet s.windows id with
  | none => rfl
  | some w =>
    simp only [updateZIndices]
    exact isSome_applyZ _ _ _ _

/-- Window views that ignore the focused flag pass through `blurPrevious`. -/
theorem view_blurPrevious {β : Type} (g : Window → β)
    (hg : ∀ w, g { w with isFocused := false } = g w) (id : String) (s : WMState) (k : String) :
    (mapGet (blurPrevious id s).windows k).map g = (mapGet s.windows k).map g := by
  rcases blurPrevious_windows_cases id s with h | ⟨fid, _, _, _, h⟩
  · rw [h]
  · rw [h, mapGet_mapUpdate]
    by_cases hk : k = fid
    · rw [if_pos hk, hk, Option.map_map]
      exact Option.map_congr (fun w _ => hg w)
    · rw [if_neg hk]

theorem blurPrevious_windows_none (id : String) (s : WMState)
    (h : s.focusedWindowId = none) : (blurPrevious id s).windows = s.windows := by
  rw [blurPrevious_none id s h]

theorem blurPrevious_windows_skip (id fid : String) (s : WMState)
    (h : s.focusedWindowId = some fid) (hc : ¬(fid ≠ "" ∧ fid ≠ id)) :
    (blurPrevious id s).windows = s.windows := by
  rw [blurPrevious_skip id fid s h hc]

theorem blurPrevious_windows_app (id fid : String) (s : WMState)
    (h : s.focusedWindowId = some fid) (hc : fid ≠ "" ∧ fid ≠ id) :
    (blurPrevious id s).windows =
      mapUpdate s.windows fid (fun p => { p with isFocused := false }) := by
  rw [blurPrevious_app id fid s h hc]

/-- The state `focusWindow` assembles when the target exists and is not
minimized satisfies the focus invariant again. -/
theorem focusInv_focus_core (s : WMState) (id : String) (w : Window)
    (hg : mapGet s.windows id = some w) (hmin : w.isMinimized = false)
    (h : FocusInv s) (ord : List String) (nz : Int) :
    FocusInv
      { windows :=
          mapUpdate (bringToFront id (blurPrevious id s)).windows id
            (fun p => { p with isFocused := true }),
        windowOrder := ord, focusedWindowId := some id, nextZIndex := nz } := by
  obtain ⟨hvis, hfoc, hfid⟩ := h
  have hidne : id ≠ "" := (hvis id w hg).2
  have hvisview : ∀ k, (mapGet (bringToFront id (blurPrevious id s)).windows k).map
      (fun x => x.isVisible) = (mapGet s.windows k).map (fun x => x.isVisible) := by
    intro k
    rw [view_bringToFront (fun x => x.isVisible) (fun _ _ => rfl),
      view_blurPrevious (fun x => x.isVisible) (fun _ => rfl)]
  have hminview : ∀ k, (mapGet (bringToFront id (blurPrevious id s)).windows k).map
      (fun x => x.isMinimized) = (mapGet s.windows k).map (fun x => x.isMinimized) := by
    intro k
    rw [view_bringToFront (fun x => x.isMinimized) (fun _ _ => rfl),
      view_blurPrevious (fun x => x.isMinimized) (fun _ => rfl)]
  have hfocview : ∀ k, (mapGet (bringToFront id (blurPrevious id s)).windows k).map
      (fun x => x.isFocused) = (mapGet (blurPrevious id s).windows k).map
      (fun x => x.isFocused) := fun k =>
    view_bringToFront (fun x => x.isFocused) (fun _ _ => rfl) id _ k
  refine ⟨fun k w' hk => ?_, fun k w' hk hf => ?_, fun f hf => ?_⟩
  · rw [mapGet_mapUpdate] at hk
    by_cases hki : k = id
    · rw [if_pos hki] at hk
      rcases Option.map_eq_some'.mp hk with ⟨b, hb, hbw⟩
      have hbv : b.isVisible = w.isVisible := by
        have hv := hvisview id
        rw [hb, hg] at hv
        have hv2 : some b.isVisible = some w.isVisible := hv
        exact Option.some.inj hv2
      have hwb : w'.isVisible = b.isVisible := by
        rw [← hbw]
      refine ⟨?_, fun hh => hidne (hki.symm.trans hh)⟩
      rw [hwb, hbv]
      exact (hvis id w hg).1
    · rw [if_neg hki] at hk
      have hv := hvisview k
      rw [hk] at hv
      have hv2 : (mapGet s.windows k).map (fun x => x.isVisible) = some w'.isVisible :=
        hv.symm
      rcases Option.map_eq_some'.mp hv2 with ⟨worig, hwo, hwv⟩
      have hwv2 : worig.isVisible = w'.isVisible := hwv
      refine ⟨?_, (hvis k worig hwo).2⟩
      rw [← hwv2]
      exact (hvis k worig hwo).1
  · rw [mapGet_mapUpdate] at hk
    by_cases hki : k = id
    · rw [if_pos hki] at hk
      rcases Option.map_eq_some'.mp hk with ⟨b, hb, hbw⟩
      have hbm : b.isMinimized = w.isMinimized := by
        have hv := hminview id
        rw [hb, hg] at hv
        have hv2 : some b.isMinimized = some w.isMinimized := hv
        exact Option.some.inj hv2
      have hwb : w'.isMinimized = b.isMinimized := by
        rw [← hbw]
      refine ⟨?_, by rw [hki]⟩
      rw [hwb, hbm]
      exact hmin
    · rw [if_neg hki] at hk
      exfalso
      have hfv := hfocview k
      rw [hk] at hfv
      have hfv2 : (mapGet (blurPrevious id s).windows k).map (fun x => x.isFocused) =
          some w'.isFocused := hfv.symm
      rcases Option.map_eq_some'.mp hfv2 with ⟨w1, hw1, hw1f⟩
      have hw1t : w1.isFocused = true := by
        have hw1f2 : w1.isFocused = w'.isFocused := hw1f
        rw [hw1f2]
        exact hf
      cases hsf : s.focusedWindowId with
      | none =>
        rw [blurPrevious_windows_none id s hsf] at hw1
        have hcc := (hfoc k w1 hw1 hw1t).2
        rw [hsf] at hcc
        exact Option.noConfusion hcc
      | some fid0 =>
        by_cases hc : fid0 ≠ "" ∧ fid0 ≠ id
        · rw [blurPrevious_windows_app id fid0 s hsf hc, mapGet_mapUpdate] at hw1
          by_cases hkf : k = fid0
          · rw [if_pos hkf] at hw1
            rcases Option.map_eq_some'.mp hw1 with ⟨b0, _, hb0⟩
            have hb0f : w1.isFocused = false := by
              rw [← hb0]
            rw [hb0f] at hw1t
            exact Bool.false_ne_true hw1t
          · rw [if_neg hkf] at hw1
            have hcc := (hfoc k w1 hw1 hw1t).2
            rw [hsf] at hcc
            exact hkf (Option.some.inj hcc).symm
        · rw [blurPrevious_windows_skip id fid0 s hsf hc] at hw1
          have hkk := (hfoc k w1 hw1 hw1t).2
          rw [hsf] at hkk
          have hfk : fid0 = k := Option.some.inj hkk
          rcases not_and_or.mp hc with hc1 | hc2
          · exact hfid fid0 hsf (not_not.mp hc1)
          · exact hki (hfk.symm.trans (not_not.mp hc2))
  · have hif : id = f := Option.some.inj hf
    rw [← hif]
    exact hidne

theorem focusInv_focusWindow (id : String) (m : Manager) (h : FocusInv m.state) :
    FocusInv (focusWindow id m).state := by
  unfold focusWindow
  cases hg : mapGet m.state.windows id with
  | none => exact h
  | some w =>
    by_cases hmin : w.isMinimized
    · simp only [if_pos hmin]
      exact h
    · simp only [if_neg hmin]
      exact focusInv_focus_core m.state id w hg (by simpa using hmin) h _ _

theorem focusInv_createWindow (id appId : String) (b : Option WindowBounds)
    (c : Option WindowConstraints) (md : Option JVal) (m : Manager)
    (hP : id ≠ "") (h : FocusInv m.state) :
    FocusInv (createWindow id appId b c md m).2.state := by
  unfold createWindow
  by_cases hg : (mapGet m.state.windows id).isSome
  · simp only [if_pos hg]
    exact h
  · simp only [if_neg hg]
    obtain ⟨hvis, hfoc, hfid⟩ := h
    refine ⟨fun k w' hk => ?_, fun k w' hk hf => ?_, fun f hf => hfid f hf⟩
    · have hk2 : mapGet (mapSet m.state.windows id
          { id := id, appId := appId,
            bounds :=
              { position := (b.map (·.position)).getD { x := 50, y := 50 },
                size := (b.map (·.size)).getD { width := 400, height := 300 } },
            zIndex := m.state.nextZIndex, isFocused := false, isMinimized := false,
            isMaximized := false, isVisible := true, metadata := md }) k = some w' := hk
      rw [mapGet_mapSet] at hk2
      by_cases hki : k = id
      · rw [if_pos hki] at hk2
        have hw' := Option.some.inj hk2
        refine ⟨?_, fun hh => hP (hki.symm.trans hh)⟩
        rw [← hw']
      · rw [if_neg hki] at hk2
        exact hvis k w' hk2
    · have hk2 : mapGet (mapSet m.state.windows id
          { id := id, appId := appId,
            bounds :=
              { position := (b.map (·.position)).getD { x := 50, y := 50 },
                size := (b.map (·.size)).getD { width := 400, height := 300 } },
            zIndex := m.state.nextZIndex, isFocused := false, isMinimized := false,
            isMaximized := false, isVisible := true, metadata := md }) k = some w' := hk
      rw [mapGet_mapSet] at hk2
      by_cases hki : k = id
      · rw [if_pos hki] at hk2
        have hw' := Option.some.inj hk2
        rw [← hw'] at hf
        exact absurd hf (by simp)
      · rw [if_neg hki] at hk2
        exact hfoc k w' hk2 hf

/-- The focus deferral of `destroyWindow`: the focused id it leaves in
place while the deferred refocus is pending, or clears. -/
theorem destroyNextFocus_of_ne (id : String) (s : WMState) (k : String)
    (h : s.focusedWindowId = some k) (hk : k ≠ id) :
    destroyNextFocus id s = some k := by
  unfold destroyNextFocus
  rw [if_neg (fun hx => hk (Option.some.inj (h ▸ hx)))]
  exact h

theorem destroyNextFocus_some (id : String) (s : WMState) (f : String)
    (h : destroyNextFocus id s = some f) : s.focusedWindowId = some f := by
  unfold destroyNextFocus at h
  by_cases hc : s.focusedWindowId = some id
  · rw [if_pos hc] at h
    cases htop : getTopmost (destroyedState id s) with
    | some nw => rw [htop] at h; exact h
    | none => rw [htop] at h; exact Option.noConfusion h
  · rw [if_neg hc] at h
    exact h

theorem focusInv_destroyWindow (id : String) (m : Manager) (h : FocusInv m.state) :
    FocusInv (destroyWindow id m).state := by
  unfold destroyWindow
  cases hg : mapGet m.state.windows id with
  | none => exact h
  | some w =>
    obtain ⟨hvis, hfoc, hfid⟩ := h
    refine ⟨fun k w' hk => ?_, fun k w' hk hf => ?_, fun f hf => ?_⟩
    · have hk2 : mapGet (mapDelete m.state.windows id) k = some w' := hk
      rw [mapGet_mapDelete] at hk2
      by_cases hki : k = id
      · rw [if_pos hki] at hk2
        exact Option.noConfusion hk2
      · rw [if_neg hki] at hk2
        exact hvis k w' hk2
    · have hk2 : mapGet (mapDelete m.state.windows id) k = some w' := hk
      rw [mapGet_mapDelete] at hk2
      by_cases hki : k = id
      · rw [if_pos hki] at hk2
        exact Option.noConfusion hk2
      · rw [if_neg hki] at hk2
        have hff := (hfoc k w' hk2 hf).2
        refine ⟨(hfoc k w' hk2 hf).1, ?_⟩
        have hgoal : destroyNextFocus id m.state = some k :=
          destroyNextFocus_of_ne id m.state k hff hki
        exact hgoal
    · have hf2 : destroyNextFocus id m.state = some f := hf
      exact hfid f (destroyNextFocus_some id m.state f hf2)

theorem focusInv_preservingUpdate (s : WMState) (k0 : String) (f : Window → Window)
    (hf : ∀ w, (f w).isFocused = w.isFocused ∧ (f w).isMinimized = w.isMinimized ∧
      (f w).isVisible = w.isVisible)
    (h : FocusInv s) : FocusInv { s with windows := mapUpdate s.windows k0 f } := by
  obtain ⟨hvis, hfoc, hfid⟩ := h
  refine ⟨fun k w' hk => ?_, fun k w' hk hff => ?_, fun f2 hf2 => hfid f2 hf2⟩
  · have hk2 : mapGet (mapUpdate s.windows k0 f) k = some w' := hk
    rw [mapGet_mapUpdate] at hk2
    by_cases hki : k = k0
    · rw [if_pos hki] at hk2
      rcases Option.map_eq_some'.mp hk2 with ⟨b, hb, hbw⟩
      have hbs := hvis k0 b hb
      refine ⟨?_, fun hh => hbs.2 (hki.symm.trans hh)⟩
      rw [← hbw, (hf b).2.2]
      exact hbs.1
    · rw [if_neg hki] at hk2
      exact hvis k w' hk2
  · have hk2 : mapGet (mapUpdate s.windows k0 f) k = some w' := hk
    rw [mapGet_mapUpdate] at hk2
    by_cases hki : k = k0
    · rw [if_pos hki] at hk2
      rcases Option.map_eq_some'.mp hk2 with ⟨b, hb, hbw⟩
      have hbf : b.isFocused = true := by
        rw [← (hf b).1, hbw]
        exact hff
      have hbs := hfoc k0 b hb hbf
      refine ⟨?_, by rw [hki]; exact hbs.2⟩
      rw [← hbw, (hf b).2.1]
      exact hbs.1
    · rw [if_neg hki] at hk2
      exact hfoc k w' hk2 hff

theorem focusInv_minimizedState (id : String) (s : WMState) (h : FocusInv s) :
    FocusInv (minimizedState id s) := by
  obtain ⟨hvis, hfoc, hfid⟩ := h
  refine ⟨fun k w' hk => ?_, fun k w' hk hf => ?_, fun f hf => hfid f hf⟩
  · have hk2 : mapGet (mapUpdate s.windows id
        (fun p => { p with isMinimized := true, isFocused := false })) k = some w' := hk
    rw [mapGet_mapUpdate] at hk2
    by_cases hki : k = id
    · rw [if_pos hki] at hk2
      rcases Option.map_eq_some'.mp hk2 with ⟨b, hb, hbw⟩
      have hbs := hvis id b hb
      refine ⟨?_, fun hh => hbs.2 (hki.symm.trans hh)⟩
      rw [← hbw]
      exact hbs.1
    · rw [if_neg hki] at hk2
      exact hvis k w' hk2
  · have hk2 : mapGet (mapUpdate s.windows id
        (fun p => { p with isMinimized := true, isFocused := false })) k = some w' := hk
    rw [mapGet_mapUpdate] at hk2
    by_cases hki : k = id
    · rw [if_pos hki] at hk2
      rcases Option.map_eq_some'.mp hk2 with ⟨b, _, hbw⟩
      rw [← hbw] at hf
      exact absurd hf (by simp)
    · rw [if_neg hki] at hk2
      exact hfoc k w' hk2 hf

theorem focusInv_minimizeWindow (id : String) (m : Manager) (h : FocusInv m.state) :
    FocusInv (minimizeWindow id m).state := by
  unfold minimizeWindow
  cases hg : mapGet m.state.windows id with
  | none => exact h
  | some w =>
    by_cases hmin : w.isMinimized
    · simp only [if_pos hmin]
      exact h
    · simp only [if_neg hmin]
      have hst1 : FocusInv (minimizedState id m.state) := focusInv_minimizedState id m.state h
      by_cases hfc : (minimizedState id m.state).focusedWindowId = some id
      · simp only [if_pos hfc]
        cases htop : getTopmost (minimizedState id m.state) with
        | some nw => exact focusInv_focusWindow _ _ hst1
        | none =>
          obtain ⟨hv1, hf1, _⟩ := hst1
          refine ⟨fun k w' hk => hv1 k w' hk, fun k w' hk hf => ?_, fun f hf =>
            Option.noConfusion hf⟩
          exfalso
          have hk2 : mapGet (minimizedState id m.state).windows k = some w' := hk
          have hfidk := (hf1 k w' hk2 hf).2
          rw [hfc] at hfidk
          have hki : k = id := (Option.some.inj hfidk).symm
          have hk3 : mapGet (mapUpdate m.state.windows id
              (fun p => { p with isMinimized := true, isFocused := false })) k = some w' := hk2
          rw [mapGet_mapUpdate, if_pos hki] at hk3
          rcases Option.map_eq_some'.mp hk3 with ⟨b, _, hbw⟩
          rw [← hbw] at hf
          exact absurd hf (by simp)
      · simp only [if_neg hfc]
        exact hst1

theorem focusInv_maximizeWindow (id : String) (m : Manager) (h : FocusInv m.state) :
    FocusInv (maximizeWindow id m).state := by
  unfold maximizeWindow
  cases hg : mapGet m.state.windows id with
  | none => exact h
  | some w =>
    by_cases hmax : w.isMaximized
    · simp only [if_pos hmax]
      exact h
    · simp only [if_neg hmax]
      exact focusInv_preservingUpdate _ _ _ (fun w0 => ⟨rfl, rfl, rfl⟩) h

theorem focusInv_restoreWindow (id : String) (m : Manager) (h : FocusInv m.state) :
    FocusInv (restoreWindow id m).state := by
  unfold restoreWindow
  cases hg : mapGet m.state.windows id with
  | none => exact h
  | some w =>
    by_cases hmin : w.isMinimized
    · simp only [if_pos hmin]
      apply focusInv_focusWindow
      obtain ⟨hvis, hfoc, hfid⟩ := h
      refine ⟨fun k w' hk => ?_, fun k w' hk hf => ?_, fun f hf => hfid f hf⟩
      · have hk2 : mapGet (mapUpdate m.state.windows id
            (fun p => { p with isMinimized := false, isVisible := true })) k = some w' := hk
        rw [mapGet_mapUpdate] at hk2
        by_cases hki : k = id
        · rw [if_pos hki] at hk2
          rcases Option.map_eq_some'.mp hk2 with ⟨b, hb, hbw⟩
          refine ⟨?_, fun hh => (hvis id b hb).2 (hki.symm.trans hh)⟩
          rw [← hbw]
        · rw [if_neg hki] at hk2
          exact hvis k w' hk2
      · have hk2 : mapGet (mapUpdate m.state.windows id
            (fun p => { p with isMinimized := false, isVisible := true })) k = some w' := hk
        rw [mapGet_mapUpdate] at hk2
        by_cases hki : k = id
        · exfalso
          rw [if_pos hki] at hk2
          rcases Option.map_eq_some'.mp hk2 with ⟨b, hb, hbw⟩
          have hb2 : b = w := by
            rw [hb] at hg
            exact Option.some.inj hg
          have hbf : b.isFocused = true := by
            rw [← hbw] at hf
            exact hf
          have hbm := (hfoc id b hb hbf).1
          rw [hb2] at hbm
          rw [hbm] at hmin
          exact Bool.false_ne_true hmin
        · rw [if_neg hki] at hk2
          exact hfoc k w' hk2 hf
    · simp only [if_neg hmin]
      by_cases hmax : w.isMaximized
      · simp only [if_pos hmax]
        exact focusInv_preservingUpdate _ _ _ (fun w0 => ⟨rfl, rfl, rfl⟩) h
      · simp only [if_neg hmax]
        exact h

theorem focusInv_moveWindow (id : String) (pos : WindowPosition) (m : Manager)
    (h : FocusInv m.state) : FocusInv (moveWindow id pos m).state := by
  unfold moveWindow
  cases hg : mapGet m.state.windows id with
  | none => exact h
  | some w =>
    by_cases hc : ((mapGet m.constraints id).bind (·.canMove)) = some false
    · simp only [if_pos hc]
      exact h
    · simp only [if_neg hc]
      exact focusInv_preservingUpdate _ _ _ (fun w0 => ⟨rfl, rfl, rfl⟩) h

theorem focusInv_resizeWindow (id : String) (sz : WindowSize) (m : Manager)
    (h : FocusInv m.state) : FocusInv (resizeWindow id sz m).state := by
  unfold resizeWindow
  cases hg : mapGet m.state.windows id with
  | none => exact h
  | some w =>
    by_cases hc : ((mapGet m.constraints id).bind (·.canResize)) = some false
    · simp only [if_pos hc]
      exact h
    · simp only [if_neg hc]
      exact focusInv_preservingUpdate _ _ _ (fun w0 => ⟨rfl, rfl, rfl⟩) h

/-- Every state reachable with nonempty window ids keeps the focus
invariant. -/
theorem reachableNE_focusInv (m : Manager)
    (h : ReachableP (fun id => id ≠ "") m) : FocusInv m.state := by
  induction h with
  | init =>
    refine ⟨fun k w hk => ?_, fun k w hk hf => ?_, fun f hf => ?_⟩
    · exact Option.noConfusion hk
    · exact Option.noConfusion hk
    · exact Option.noConfusion hf
  | create m id appId b c md hr hp ih => exact focusInv_createWindow _ _ _ _ _ _ hp ih
  | destroy m id hr ih => exact focusInv_destroyWindow _ _ ih
  | focus m id hr ih => exact focusInv_focusWindow _ _ ih
  | minimize m id hr ih => exact focusInv_minimizeWindow _ _ ih
  | maximize m id hr ih => exact focusInv_maximizeWindow _ _ ih
  | restore m id hr ih => exact focusInv_restoreWindow _ _ ih
  | move m id pos hr ih => exact focusInv_moveWindow _ _ _ ih
  | resize m id sz hr ih => exact focusInv_resizeWindow _ _ _ ih

/-! ## Bridges between the invariants and the executable checkers -/

theorem permCheck_of_baseInv (s : WMState) (h : BaseInv s) : permCheck s = true := by
  obtain ⟨h1, h2, h3⟩ := h
  unfold permCheck
  rw [Bool.and_eq_true, Bool.and_eq_true]
  refine ⟨⟨decide_eq_true h1, ?_⟩, ?_⟩
  · rw [List.all_eq_true]
    intro id hid
    exact (h3 id).mp hid
  · rw [List.all_eq_true]
    intro p hp
    have hmem : p.1 ∈ s.windowOrder := (h3 p.1).mpr (mapGet_isSome_of_mem _ p hp)
    exact List.elem_iff.mpr hmem

theorem applyZ_get_notmem (l : List String) (i : Int) (ws : List (String × Window))
    (k : String) (h : k ∉ l) : mapGet (applyZ i l ws) k = mapGet ws k := by
  induction l generalizing i ws with
  | nil => rfl
  | cons a rest ih =>
    rw [List.mem_cons, not_or] at h
    rw [applyZ, ih _ _ h.2, mapGet_mapUpdate, if_neg h.1]

theorem zAll_mapUpdate_zpreserve (l : List String) (i : Int)
    (ws : List (String × Window)) (k : String) (f : Window → Window)
    (hf : ∀ w, (f w).zIndex = w.zIndex) :
    zAll i l (mapUpdate ws k f) = zAll i l ws := by
  induction l generalizing i with
  | nil => rfl
  | cons a rest ih =>
    rw [zAll, zAll, ih]
    congr 1
    rw [mapGet_mapUpdate]
    by_cases hak : a = k
    · rw [if_pos hak, hak]
      cases hm : mapGet ws k with
      | none => rfl
      | some b => simp [hf b]
    · rw [if_neg hak]

theorem zAll_applyZ (l : List String) : ∀ (i : Int) (ws : List (String × Window)),
    l.Nodup → (∀ k, k ∈ l → (mapGet ws k).isSome) →
    zAll i l (applyZ i l ws) = true := by
  induction l with
  | nil => intro i ws _ _; rfl
  | cons a rest ih =>
    intro i ws hnd hsome
    rw [List.nodup_cons] at hnd
    rw [applyZ, zAll, Bool.and_eq_true]
    constructor
    · rw [applyZ_get_notmem rest (i + 1) _ a hnd.1, mapGet_mapUpdate, if_pos rfl]
      have := hsome a (List.mem_cons_self a rest)
      cases hm : mapGet ws a with
      | none => rw [hm] at this; simp at this
      | some b => simp [hm]
    · exact ih (i + 1) _ hnd.2 (fun k hk => by
        rw [isSome_mapUpdate]
        exact hsome k (List.mem_cons_of_mem a hk))

/-- A successful `focusWindow` recomputes every z-index to position + 1. -/
theorem zCheck_focusWindow (id : String) (m : Manager) (w : Window)
    (hb : BaseInv m.state) (hg : mapGet m.state.windows id = some w)
    (hmin : w.isMinimized = false) : zCheck (focusWindow id m).state = true := by
  unfold focusWindow
  cases hq : mapGet m.state.windows id with
  | none => rw [hq] at hg; exact Option.noConfusion hg
  | some w2 =>
    have hw2 : w2 = w := by rw [hq] at hg; exact Option.some.inj hg
    have hnot : ¬w2.isMinimized := by rw [hw2, hmin]; exact Bool.false_ne_true
    simp only [if_neg hnot]
    show zAll 0 (bringToFront id (blurPrevious id m.state)).windowOrder
      (mapUpdate (bringToFront id (blurPrevious id m.state)).windows id
        (fun p => { p with isFocused := true })) = true
    have hsome1 : (mapGet (blurPrevious id m.state).windows id).isSome := by
      rw [isSome_blurPrevious, hg]
      rfl
    obtain ⟨w1, hw1⟩ := Option.isSome_iff_exists.mp hsome1
    simp only [bringToFront, hw1, updateZIndices]
    rw [zAll_mapUpdate_zpreserve _ _ _ id (fun p => { p with isFocused := true })
      (fun w0 => rfl)]
    apply zAll_applyZ
    · rw [blurPrevious_windowOrder]
      exact nodup_moveToEnd _ _ hb.1
    · intro k hk
      rw [blurPrevious_windowOrder, mem_moveToEnd] at hk
      rw [isSome_blurPrevious]
      rcases hk with hk | hk
      · exact (hb.2.2 k).mp hk
      · rw [hk, hg]
        rfl

theorem countP_le_one_of_unique_key {α : Type} (l : List (String × α))
    (pred : String × α → Bool) (a : String)
    (hnodup : (l.map Prod.fst).Nodup) (hkey : ∀ p ∈ l, pred p = true → p.1 = a) :
    l.countP pred ≤ 1 := by
  induction l with
  | nil => simp
  | cons p rest ih =>
    rw [List.countP_cons]
    simp only [List.map_cons, List.nodup_cons] at hnodup
    by_cases hp : pred p = true
    · have hpa : p.1 = a := hkey p (List.mem_cons_self p rest) hp
      have hrest : rest.countP pred = 0 := by
        rw [List.countP_eq_zero]
        intro q hq hqp
        have hqa : q.1 = a := hkey q (List.mem_cons_of_mem _ hq) hqp
        apply hnodup.1
        rw [hpa, ← hqa]
        exact List.mem_map_of_mem Prod.fst hq
      rw [hrest, if_pos hp]
    · rw [if_neg hp]
      simp only [Nat.add_zero]
      exact ih hnodup.2 (fun q hq hqp => hkey q (List.mem_cons_of_mem _ hq) hqp)

/-- At most one window is focused in any state with both invariants. -/
theorem focusedCount_le_one (s : WMState) (hb : BaseInv s) (hf : FocusInv s) :
    focusedCount s ≤ 1 := by
  obtain ⟨_, hkeys, _⟩ := hb
  obtain ⟨_, hfoc, _⟩ := hf
  cases hsf : s.focusedWindowId with
  | none =>
    have h0 : focusedCount s = 0 := by
      rw [focusedCount, List.countP_eq_zero]
      intro p hp hpf
      have hget := mapGet_of_mem_nodup _ p hkeys hp
      have := (hfoc p.1 p.2 hget hpf).2
      rw [hsf] at this
      exact Option.noConfusion this
    rw [h0]
    exact Nat.zero_le 1
  | some a =>
    refine countP_le_one_of_unique_key _ _ a hkeys (fun p hp hpf => ?_)
    have hget := mapGet_of_mem_nodup _ p hkeys hp
    have := (hfoc p.1 p.2 hget hpf).2
    rw [hsf] at this
    exact (Option.some.inj this).symm

theorem focused_entry_props (s : WMState) (hb : BaseInv s) (hf : FocusInv s) :
    ∀ p ∈ s.windows, p.2.isFocused = true →
      p.2.isVisible = true ∧ p.2.isMinimized = false := by
  intro p hp hpf
  have hget := mapGet_of_mem_nodup _ p hb.2.1 hp
  exact ⟨(hf.1 p.1 p.2 hget).1, (hf.2.1 p.1 p.2 hget hpf).1⟩

/-! ## Claim C1: stacking-order invariant -/

/-- Counterexample trace for C1: create A, (deferred) focus A, create B,
(deferred) focus B, destroy A — `destroyWindow` removes A from the order
without reindexing and schedules no refocus (B is focused), so B sits at
position 0 with zIndex 2. -/
def cexStack : Manager :=
  destroyWindow "A" (focusWindow "B"
    ((createWindow "B" "app" none none none
      (focusWindow "A" ((createWindow "A" "app" none none none initManager).2))).2))

/-- Claim C1 as stated is false: `cexStack` is reachable by the public
operations, with every deferred focus step already run, yet its stacking
invariant fails — the set/no-duplicate half holds but the window at
position 0 has zIndex 2, not 1, because `destroyWindow` never calls
`updateZIndices`. -/
theorem stackingOrder_invariant_counterexample :
    Reachable cexStack ∧ (permCheck cexStack.state && zCheck cexStack.state) = false := by
  constructor
  · exact ReachableP.destroy _ _ (ReachableP.focus _ _
      (ReachableP.create _ _ _ _ _ _ (ReachableP.focus _ _
        (ReachableP.create _ _ _ _ _ _ ReachableP.init trivial)) trivial))
  · rfl

/-- Claim C1 (amended): in every state reachable by the public
window-manager operations (deferred focus steps included, since they run
`focusWindow`), the stacking order lists exactly the live window
identities with no duplicates; the `zIndex = position + 1` half of the
claim holds after every successful `focusWindow` — in particular after
each deferred auto-focus or refocus completes — but is not maintained by
`destroyWindow` itself. -/
theorem stackingOrder_invariant_amended :
    (∀ m : Manager, Reachable m → permCheck m.state = true) ∧
    (∀ (m : Manager) (id : String) (w : Window), Reachable m →
      mapGet m.state.windows id = some w → w.isMinimized = false →
      permCheck (focusWindow id m).state = true ∧
      zCheck (focusWindow id m).state = true) := by
  constructor
  · intro m hm
    exact permCheck_of_baseInv _ (reachableP_baseInv _ _ hm)
  · intro m id w hm hg hmin
    have hb := reachableP_baseInv _ _ hm
    exact ⟨permCheck_of_baseInv _ (baseInv_focusWindow id m hb),
      zCheck_focusWindow id m w hb hg hmin⟩

/-- The one-window manager used as witness input. -/
def witStackM : Manager :=
  (createWindow "A" "app" none none none initManager).2

/-- The window record `createWindow "A"` installs in `witStackM`. -/
def witStackW : Window :=
  { id := "A", appId := "app",
    bounds := { position := { x := 50, y := 50 }, size := { width := 400, height := 300 } },
    zIndex := 1, isFocused := false, isMinimized := false, isMaximized := false,
    isVisible := true, metadata := none }

/-- Witness for C1 (amended) at a concrete reachable state and focus
target. -/
theorem stackingOrder_invariant_witness :
    Reachable witStackM ∧ mapGet witStackM.state.windows "A" = some witStackW ∧
    witStackW.isMinimized = false ∧ permCheck witStackM.state = true ∧
    permCheck (focusWindow "A" witStackM).state = true ∧
    zCheck (focusWindow "A" witStackM).state = true := by
  have hr : Reachable witStackM :=
    ReachableP.create _ _ _ _ _ _ ReachableP.init trivial
  have hg : mapGet witStackM.state.windows "A" = some witStackW := rfl
  have hmin : witStackW.isMinimized = false := rfl
  exact ⟨hr, hg, hmin, stackingOrder_invariant_amended.1 _ hr,
    (stackingOrder_invariant_amended.2 _ _ _ hr hg hmin).1,
    (stackingOrder_invariant_amended.2 _ _ _ hr hg hmin).2⟩

/-! ## Claim C2: focus invariant -/

/-- Counterexample trace for C2: a window with the empty-string identity.
`focusWindow`'s blur guard `state.focusedWindowId && ...` treats the empty
string as falsy, so focusing "A" never blurs the still-focused "" window. -/
def cexFocus : Manager :=
  focusWindow "A"
    ((createWindow "A" "app" none none none
      (focusWindow "" ((createWindow "" "app" none none none initManager).2))).2)

/-- Claim C2 as stated is false: `cexFocus` is reachable by the public
operations (creating a window whose id is the empty string is allowed),
every deferred focus step has run, and two windows carry
`isFocused = true` simultaneously. -/
theorem focus_invariant_counterexample :
    Reachable cexFocus ∧ ¬(focusedCount cexFocus.state ≤ 1) := by
  constructor
  · exact ReachableP.focus _ _ (ReachableP.create _ _ _ _ _ _
      (ReachableP.focus _ _ (ReachableP.create _ _ _ _ _ _
        ReachableP.init trivial)) trivial)
  · decide

/-- Claim C2 (amended): in every state reachable by the public
window-manager operations in which every created window id is nonempty
(the empty string defeats the truthiness blur guard in `focusWindow`), at
most one window has `isFocused = true`, and a focused window is visible
and not minimized. -/
theorem focus_invariant_amended (m : Manager) (h : ReachableNE m) :
    focusedCount m.state ≤ 1 ∧
    (∀ p ∈ m.state.windows, p.2.isFocused = true →
      p.2.isVisible = true ∧ p.2.isMinimized = false) := by
  have hb := reachableP_baseInv _ _ h
  have hf := reachableNE_focusInv _ h
  exact ⟨focusedCount_le_one _ hb hf, focused_entry_props _ hb hf⟩

/-- A concrete nonempty-id reachable state for the C2 witness. -/
def witFocusM : Manager :=
  focusWindow "A" ((createWindow "A" "app" none none none initManager).2)

/-- Witness for C2 (amended) at a concrete reachable state. -/
theorem focus_invariant_witness :
    ReachableNE witFocusM ∧ focusedCount witFocusM.state ≤ 1 ∧
    (∀ p ∈ witFocusM.state.windows, p.2.isFocused = true →
      p.2.isVisible = true ∧ p.2.isMinimized = false) := by
  have hr : ReachableNE witFocusM :=
    ReachableP.focus _ _ (ReachableP.create _ _ _ _ _ _ ReachableP.init (by decide))
  exact ⟨hr, (focus_invariant_amended _ hr).1, (focus_invariant_amended _ hr).2⟩

/-! ## Claims C3, C4, C9: serialization -/

theorem entriesOf_encoded (l : List (String × Window)) :
    entriesOf (l.map (fun p => JVal.arr [JVal.str p.1, encodeWindow p.2])) =
      Except.ok (l.map (fun p => (p.1, encodeWindow p.2))) := by
  induction l with
  | nil => rfl
  | cons p rest ih =>
    simp only [List.map_cons, entriesOf, entryOf, ih, List.headD]

/-- Claim C4: for every window-manager state (in particular every
reachable one), loading the snapshot `getSerializedState` produces —
through the identity `JSON.parse ∘ JSON.stringify` boundary — restores the
very same observable registry: the same window records (as their JSON
images), the same stacking order, focused id and z-index counter,
regardless of what state was loaded over. -/
theorem serialization_roundtrip (s : WMState) (prior : JSState) :
    loadSerializedState (Except.ok (encodeState s)) prior = toJS s := by
  have h1 : jsField (encodeState s) "windows" =
      Except.ok (JVal.arr (s.windows.map
        (fun p => JVal.arr [JVal.str p.1, encodeWindow p.2]))) := rfl
  simp only [loadSerializedState, h1, newMapArg, entriesOf_encoded]
  rfl

/-- A nonempty prior registry used by the C3 failing-input theorem. -/
def c3Win : Window :=
  { id := "w1", appId := "app",
    bounds := { position := { x := 50, y := 50 }, size := { width := 400, height := 300 } },
    zIndex := 1, isFocused := true, isMinimized := false, isMaximized := false,
    isVisible := true, metadata := none }

def c3Prior : JSState :=
  toJS { windows := [("w1", c3Win)], windowOrder := ["w1"],
         focusedWindowId := some "w1", nextZIndex := 2 }

/-- Claim C3 fails on the code (code bug): the string "{}" is valid JSON
of the wrong shape; `JSON.parse` succeeds, `parsed.windows` is `undefined`
and `new Map(undefined)` is the empty map, so the whole prior registry is
replaced by a garbage state (empty window map, `undefined` order, focus
and counter) and nothing is reported to the caller.  Only a parse throw
(third conjunct) lands in the catch and preserves the prior state — and
even then the error is only logged, not surfaced. -/
theorem load_invalid_shape_bug :
    loadSerializedState (Except.ok (JVal.obj [])) c3Prior =
      { windows := [], windowOrder := JVal.undef,
        focusedWindowId := JVal.undef, nextZIndex := JVal.undef } ∧
    c3Prior ≠
      { windows := [], windowOrder := JVal.undef,
        focusedWindowId := JVal.undef, nextZIndex := JVal.undef } ∧
    loadSerializedState (Except.error ()) c3Prior = c3Prior := by
  refine ⟨rfl, ?_, rfl⟩
  intro h
  have h2 := congrArg JSState.windows h
  simp [c3Prior, toJS] at h2

/-- Claim C9: the snapshot contains no window-constraint data — it is a
function of the serializable `state` alone, unchanged under any
replacement of the constraints map — and `loadSerializedState` leaves the
constraints map untouched, so every per-window constraint lookup after a
load is exactly what it was before. -/
theorem constraints_not_serialized :
    (∀ (s : WMState) (c c2 : List (String × WindowConstraints)),
      serializeManager { state := s, constraints := c } =
        serializeManager { state := s, constraints := c2 }) ∧
    (∀ (j : Except Unit JVal) (mj : ManagerJS),
      (loadFull j mj).constraints = mj.constraints ∧
      ∀ id, mapGet (loadFull j mj).constraints id = mapGet mj.constraints id) :=
  ⟨fun _ _ _ => rfl, fun _ _ => ⟨rfl, fun _ => rfl⟩⟩

/-! ## Claim C10: which constraints are enforced -/

theorem view_focusWindow_isMinimized (fid : String) (m : Manager) (k : String) :
    (mapGet (focusWindow fid m).state.windows k).map (fun x => x.isMinimized) =
      (mapGet m.state.windows k).map (fun x => x.isMinimized) := by
  unfold focusWindow
  cases hg : mapGet m.state.windows fid with
  | none => rfl
  | some w =>
    by_cases hmin : w.isMinimized
    · simp only [if_pos hmin]
    · simp only [if_neg hmin]
      have hstep : ∀ (ws : List (String × Window)) (k2 : String),
          (mapGet (mapUpdate ws fid (fun p => { p with isFocused := true })) k2).map
            (fun x => x.isMinimized) = (mapGet ws k2).map (fun x => x.isMinimized) := by
        intro ws k2
        rw [mapGet_mapUpdate]
        by_cases hk : k2 = fid
        · rw [hk, if_pos rfl, Option.map_map]
          exact Option.map_congr (fun w0 _ => rfl)
        · rw [if_neg hk]
      rw [hstep]
      rw [view_bringToFront (fun x => x.isMinimized) (fun _ _ => rfl),
        view_blurPrevious (fun x => x.isMinimized) (fun _ => rfl)]

/-- Claim C10: `minimizeWindow`, `maximizeWindow` and `destroyWindow`
never consult the window's constraint set and take full effect even when
it declares `canMinimize`, `canMaximize` and `canClose` all `false`; of
the declared permissions only `canMove` and `canResize` are enforced —
`moveWindow` and `resizeWindow` are silent no-ops under them. -/
theorem constraint_enforcement (s : WMState)
    (cmap : List (String × WindowConstraints)) (id : String) (w : Window)
    (c : WindowConstraints)
    (hg : mapGet s.windows id = some w)
    (hmin : w.isMinimized = false) (hmax : w.isMaximized = false)
    (hc : mapGet cmap id = some c)
    (hcmin : c.canMinimize = some false) (hcmax : c.canMaximize = some false)
    (hcclose : c.canClose = some false)
    (hcmove : c.canMove = some false) (hcres : c.canResize = some false) :
    ((mapGet (minimizeWindow id ⟨s, cmap⟩).state.windows id).map
      (fun x => x.isMinimized) = some true) ∧
    ((mapGet (maximizeWindow id ⟨s, cmap⟩).state.windows id).map
      (fun x => x.isMaximized) = some true) ∧
    (mapGet (destroyWindow id ⟨s, cmap⟩).state.windows id = none) ∧
    ((destroyWindow id ⟨s, cmap⟩).state.windowOrder.contains id = false) ∧
    (∀ pos : WindowPosition, moveWindow id pos ⟨s, cmap⟩ = ⟨s, cmap⟩) ∧
    (∀ sz : WindowSize, resizeWindow id sz ⟨s, cmap⟩ = ⟨s, cmap⟩) := by
  have hnotmin : ¬w.isMinimized := by rw [hmin]; exact Bool.false_ne_true
  have hnotmax : ¬w.isMaximized := by rw [hmax]; exact Bool.false_ne_true
  have hst1get : mapGet (minimizedState id s).windows id =
      some { w with isMinimized := true, isFocused := false } := by
    have hx : mapGet (mapUpdate s.windows id
        (fun p => { p with isMinimized := true, isFocused := false })) id =
        (mapGet s.windows id).map
          (fun p => { p with isMinimized := true, isFocused := false }) := by
      rw [mapGet_mapUpdate, if_pos rfl]
    rw [show (minimizedState id s).windows = mapUpdate s.windows id
      (fun p => { p with isMinimized := true, isFocused := false }) from rfl, hx, hg]
    rfl
  refine ⟨?_, ?_, ?_, ?_, ?_, ?_⟩
  · unfold minimizeWindow
    simp only [hg, if_neg hnotmin]
    by_cases hfc : (minimizedState id s).focusedWindowId = some id
    · simp only [if_pos hfc]
      cases htop : getTopmost (minimizedState id s) with
      | some nw =>
        rw [view_focusWindow_isMinimized]
        have : mapGet ({ state := minimizedState id s, constraints := cmap } :
            Manager).state.windows id =
            some { w with isMinimized := true, isFocused := false } := hst1get
        rw [this]
        rfl
      | none =>
        have : mapGet ({ minimizedState id s with focusedWindowId := none }).windows id =
            some { w with isMinimized := true, isFocused := false } := hst1get
        rw [this]
        rfl
    · simp only [if_neg hfc]
      rw [hst1get]
      rfl
  · unfold maximizeWindow
    simp only [hg, if_neg hnotmax]
    have hx : mapGet (mapUpdate s.windows id
        (fun p => { p with isMaximized := true })) id =
        (mapGet s.windows id).map (fun p => { p with isMaximized := true }) := by
      rw [mapGet_mapUpdate, if_pos rfl]
    rw [hx, hg]
    rfl
  · unfold destroyWindow
    simp only [hg]
    have hx : mapGet (mapDelete s.windows id) id = none := by
      rw [mapGet_mapDelete, if_pos rfl]
    exact hx
  · unfold destroyWindow
    simp only [hg]
    have hx : id ∉ s.windowOrder.filter (fun x => x ≠ id) := by
      intro hmem
      rcases List.mem_filter.mp hmem with ⟨_, hdec⟩
      simp at hdec
    have hgoal : (s.windowOrder.filter (fun x => x ≠ id)).contains id = false := by
      rw [Bool.eq_false_iff]
      intro hct
      exact hx (List.elem_iff.mp hct)
    exact hgoal
  · intro pos
    unfold moveWindow
    simp only [hg, hc]
    have hcond : (some c).bind (fun x => x.canMove) = some false := by
      simp [hcmove]
    simp only [Option.bind_some] at hcond ⊢
    rw [if_pos hcond]
  · intro sz
    unfold resizeWindow
    simp only [hg, hc]
    have hcond : (some c).bind (fun x => x.canResize) = some false := by
      simp [hcres]
    simp only [Option.bind_some] at hcond ⊢
    rw [if_pos hcond]

/-- The window of the C10 witness state. -/
def c10Win : Window :=
  { id := "A", appId := "app",
    bounds := { position := { x := 0, y := 0 }, size := { width := 100, height := 100 } },
    zIndex := 1, isFocused := false, isMinimized := false, isMaximized := false,
    isVisible := true, metadata := none }

/-- A constraint set that forbids everything. -/
def c10Cons : WindowConstraints :=
  { canResize := some false, canMove := some false, canMinimize := some false,
    canMaximize := some false, canClose := some false }

def c10State : WMState :=
  { windows := [("A", c10Win)], windowOrder := ["A"],
    focusedWindowId := none, nextZIndex := 2 }

/-- Witness for C10 at a concrete window whose constraints forbid every
operation. -/
theorem constraint_enforcement_witness :
    ((mapGet (minimizeWindow "A" ⟨c10State, [("A", c10Cons)]⟩).state.windows "A").map
      (fun x => x.isMinimized) = some true) ∧
    ((mapGet (maximizeWindow "A" ⟨c10State, [("A", c10Cons)]⟩).state.windows "A").map
      (fun x => x.isMaximized) = some true) ∧
    (mapGet (destroyWindow "A" ⟨c10State, [("A", c10Cons)]⟩).state.windows "A" = none) ∧
    (moveWindow "A" { x := 7, y := 8 } ⟨c10State, [("A", c10Cons)]⟩ =
      ⟨c10State, [("A", c10Cons)]⟩) ∧
    (resizeWindow "A" { width := 7, height := 8 } ⟨c10State, [("A", c10Cons)]⟩ =
      ⟨c10State, [("A", c10Cons)]⟩) := by
  have h := constraint_enforcement c10State [("A", c10Cons)] "A" c10Win c10Cons
    rfl rfl rfl rfl rfl rfl rfl rfl rfl
  exact ⟨h.1, h.2.1, h.2.2.1, h.2.2.2.2.1 { x := 7, y := 8 },
    h.2.2.2.2.2 { width := 7, height := 8 }⟩

/-! ## Claims C5, C6: application lifecycle -/

def isTerminateFor (iid : String) : AppEvent → Bool
  | AppEvent.terminate j _ => j = iid
  | _ => false

theorem mapSet_length_of_present {α : Type} (m : List (String × α)) (k : String)
    (v : α) (h : (mapGet m k).isSome) : (mapSet m k v).length = m.length := by
  induction m with
  | nil => simp [mapGet] at h
  | cons p rest ih =>
    by_cases hp : p.1 = k
    · simp [mapSet, hp]
    · simp only [mapGet, if_neg hp] at h
      simp [mapSet, hp, ih h]

/-- Claim C5 (amended): removing the last remaining window of an instance
whose registered descriptor does not declare (truthy) background-mode
support triggers `terminate` exactly once — one terminate event, always
with reason "No windows remaining" (capital N, as the source spells it) —
and the instance is removed; when the descriptor declares background-mode
support no terminate fires and the instance stays with an empty window
list. -/
theorem removeLastWindow_terminates (reg : AppRegistry) (st : LCState)
    (iid wid : String) (inst : AppInstance) (mf : Manifest)
    (h1 : mapGet st.instances iid = some inst)
    (h2 : inst.windowIds = [wid])
    (h3 : reg inst.appId = some mf) :
    ((removeWindowFromInstance reg iid wid st).2.countP (isTerminateFor iid) =
      if mf.supportsBackgroundMode.getD false then 0 else 1) ∧
    (∀ e ∈ (removeWindowFromInstance reg iid wid st).2, isTerminateFor iid e = true →
      e = AppEvent.terminate iid (some "No windows remaining")) ∧
    (mapGet (removeWindowFromInstance reg iid wid st).1.instances iid =
      if mf.supportsBackgroundMode.getD false then some { inst with windowIds := [] }
      else none) := by
  have hfil : inst.windowIds.filter (fun x => x ≠ wid) = [] := by
    rw [h2]
    simp
  unfold removeWindowFromInstance
  simp only [h1, hfil, h3, List.length_nil, if_true]
  cases hbg : mf.supportsBackgroundMode.getD false with
  | true =>
    simp only [eq_self_iff_true, if_true]
    exact ⟨rfl, fun e he _ => absurd he (List.not_mem_nil e),
      by rw [mapGet_mapSet, if_pos rfl]⟩
  | false =>
    simp only [Bool.false_eq_true, if_false]
    have hget1 : mapGet (mapSet st.instances iid { inst with windowIds := [] }) iid =
        some { inst with windowIds := [] } := by
      rw [mapGet_mapSet, if_pos rfl]
    unfold terminate transitionState
    simp only [hget1, ne_eq, eq_self_iff_true, not_true, if_false]
    refine ⟨?_, ?_, ?_⟩
    · simp [isTerminateFor, List.countP_append, List.countP_cons]
    · intro e he hterm
      simp only [List.mem_append, List.mem_singleton] at he
      rcases he with he | he
      · rw [he] at hterm
        simp [isTerminateFor] at hterm
      · rw [he]
    · rw [mapGet_mapDelete, if_pos rfl]

/-- Registry, instance and state for the C5 witness and counterexample:
one running instance of a non-background-capable app owning one window. -/
def c5Reg : AppRegistry := fun a =>
  if a = "app" then some { supportsBackgroundMode := some false } else none

def c5Inst : AppInstance :=
  { id := "i1", appId := "app", state := AppState.running, windowIds := ["w1"],
    startTime := 0, lastActiveTime := 0, context := JVal.null }

def c5St : LCState := { instances := [("i1", c5Inst)] }

/-- Claim C5 as stated is false on one point: the reason string the code
emits is "No windows remaining", not "no windows remaining" — the emitted
event list at a concrete last-window removal shows the capitalized
reason, and the two strings differ. -/
theorem removeLastWindow_reason_counterexample :
    (removeWindowFromInstance c5Reg "i1" "w1" c5St).2 =
      [AppEvent.stateChange "i1" AppState.running AppState.stopping,
       AppEvent.terminate "i1" (some "No windows remaining")] ∧
    AppEvent.terminate "i1" (some "No windows remaining") ≠
      AppEvent.terminate "i1" (some "no windows remaining") := by
  exact ⟨rfl, by decide⟩

/-- Witness for C5 (amended) at the concrete one-window instance. -/
theorem removeLastWindow_terminates_witness :
    mapGet c5St.instances "i1" = some c5Inst ∧ c5Inst.windowIds = ["w1"] ∧
    c5Reg c5Inst.appId = some { supportsBackgroundMode := some false } ∧
    ((removeWindowFromInstance c5Reg "i1" "w1" c5St).2.countP (isTerminateFor "i1") =
      if (some false : Option Bool).getD false then 0 else 1) ∧
    (mapGet (removeWindowFromInstance c5Reg "i1" "w1" c5St).1.instances "i1" =
      if (some false : Option Bool).getD false then some { c5Inst with windowIds := [] }
      else none) := by
  have h := removeLastWindow_terminates c5Reg c5St "i1" "w1" c5Inst
    { supportsBackgroundMode := some false } rfl rfl rfl
  exact ⟨rfl, rfl, rfl, h.1, h.2.2⟩

/-- Claim C6: when the descriptor declares singleton launch and an
instance of the app already exists, `launch` returns that very instance
(same identity), stamps its `lastActiveTime` with the current time,
changes nothing else in the instance table (same size, all other keys
untouched) and emits no event at all — in particular no `launch` event. -/
theorem launch_singleton_existing (reg : AppRegistry) (st : LCState) (appId : String)
    (mf : Manifest) (ex : AppInstance) (ctx : JVal) (now : Int) (freshId : String)
    (mount : Option Bool)
    (hreg : reg appId = some mf) (hsing : mf.singleton.getD false = true)
    (hfind : findInstanceByAppId appId st = some ex)
    (hkey : mapGet st.instances ex.id = some ex) :
    launch reg appId ctx now freshId mount st =
      Except.ok ({ ex with lastActiveTime := now },
        { instances := mapSet st.instances ex.id { ex with lastActiveTime := now } }, []) ∧
    ({ ex with lastActiveTime := now } : AppInstance).id = ex.id ∧
    ({ ex with lastActiveTime := now } : AppInstance).lastActiveTime = now ∧
    (mapSet st.instances ex.id { ex with lastActiveTime := now }).length =
      st.instances.length ∧
    (∀ k, k ≠ ex.id →
      mapGet (mapSet st.instances ex.id { ex with lastActiveTime := now }) k =
        mapGet st.instances k) := by
  refine ⟨?_, rfl, rfl, ?_, fun k hk => ?_⟩
  · unfold launch
    simp only [hreg, hsing, if_true, hfind]
  · exact mapSet_length_of_present _ _ _ (by rw [hkey]; rfl)
  · rw [mapGet_mapSet, if_neg hk]

/-- Registry and state for the C6 witness: a singleton-declared app with
one running instance. -/
def c6Reg : AppRegistry := fun a =>
  if a = "app" then some { singleton := some true } else none

def c6Inst : AppInstance :=
  { id := "i1", appId := "app", state := AppState.running, windowIds := [],
    startTime := 0, lastActiveTime := 0, context := JVal.null }

def c6St : LCState := { instances := [("i1", c6Inst)] }

/-- Witness for C6 at a concrete singleton relaunch. -/
theorem launch_singleton_existing_witness :
    c6Reg "app" = some { singleton := some true } ∧
    findInstanceByAppId "app" c6St = some c6Inst ∧
    launch c6Reg "app" JVal.null 5 "fresh" none c6St =
      Except.ok ({ c6Inst with lastActiveTime := 5 },
        { instances := mapSet c6St.instances "i1" { c6Inst with lastActiveTime := 5 } },
        []) ∧
    (mapSet c6St.instances "i1" { c6Inst with lastActiveTime := 5 }).length =
      c6St.instances.length := by
  have h := launch_singleton_existing c6Reg c6St "app" { singleton := some true }
    c6Inst JVal.null 5 "fresh" none rfl rfl rfl rfl
  exact ⟨rfl, rfl, h.1, h.2.2.2.1⟩

/-! ## Claim C7: tap versus drag scenarios -/

def press00 : InputEvent :=
  { etype := InEvType.mouseDown, timestamp := 0, position := some { x := 0, y := 0 } }

/-- Scenario 1: press at (0,0), release at (3,3) 120 time-units later. -/
def tapTrace : List InputEvent :=
  [press00,
   { etype := InEvType.mouseUp, timestamp := 120, position := some { x := 3, y := 3 } }]

/-- Scenario 2: press at (0,0), move to (20,0), release at (20,0) 200
time-units after the press. -/
def dragTrace : List InputEvent :=
  [press00,
   { etype := InEvType.mouseMove, timestamp := 100, position := some { x := 20, y := 0 } },
   { etype := InEvType.mouseUp, timestamp := 200, position := some { x := 20, y := 0 } }]

/-- Claim C7 as stated is false on the drag scenario: feeding press, move,
release through the router yields exactly a tap "start", a drag "start"
and a drag "end" — the tap recognizer emits a tap-typed gesture (state
"start") on every press before the attempt is later discarded, so the
scenario does not yield "no tap gesture". -/
theorem tap_vs_drag_counterexample :
    (processGestures dragTrace).map (fun g => (g.gtype, g.gstate)) =
      [(GType.tap, GState.start), (GType.drag, GState.start), (GType.drag, GState.ended)] ∧
    ¬(∀ g ∈ processGestures dragTrace, g.gtype ≠ GType.tap) := by
  refine ⟨rfl, by decide⟩

/-- Claim C7 (amended): the press/release scenario yields a completed tap
(a tap "start" on the press, then a tap "end") and no drag gesture; the
press/move/release scenario yields a tap "start" on the press, then a
drag "start" and a drag "end", and no completed tap — no gesture of type
tap ever reaches state "end" in it. -/
theorem tap_vs_drag_amended :
    (processGestures tapTrace).map (fun g => (g.gtype, g.gstate)) =
      [(GType.tap, GState.start), (GType.tap, GState.ended)] ∧
    (∀ g ∈ processGestures tapTrace, g.gtype ≠ GType.drag) ∧
    (processGestures dragTrace).map (fun g => (g.gtype, g.gstate)) =
      [(GType.tap, GState.start), (GType.drag, GState.start), (GType.drag, GState.ended)] ∧
    (∀ g ∈ processGestures dragTrace,
      ¬(g.gtype = GType.tap ∧ g.gstate = GState.ended)) := by
  refine ⟨rfl, ?_, rfl, ?_⟩ <;> decide

/-! ## Claim C8: context matching -/

/-- The matching discipline the two `contextMatches` functions actually
implement, phrased field by field: a field set to a nonempty value must
equal the event's field, an unset or empty-string field matches anything. -/
def fieldMatchSpec (f v : Option String) : Prop :=
  ∀ sv, f = some sv → sv ≠ "" → v = some sv

theorem fieldFilter_iff (f v : Option String) :
    fieldFilter f v = true ↔ fieldMatchSpec f v := by
  cases f with
  | none =>
    simp only [fieldFilter, fieldMatchSpec]
    constructor
    · intro _ sv hsv
      exact absurd hsv (Option.noConfusion)
    · intro _
      trivial
  | some s =>
    by_cases hs : s = ""
    · subst hs
      simp only [fieldFilter, if_pos rfl, fieldMatchSpec]
      constructor
      · intro _ sv hsv hne
        exact absurd (Option.some.inj hsv).symm hne
      · intro _
        trivial
    · simp only [fieldFilter, if_neg hs, fieldMatchSpec, decide_eq_true_eq]
      constructor
      · intro hv sv hsv _
        rw [← Option.some.inj hsv]
        exact hv
      · intro hspec
        exact hspec s rfl hs

/-- Claim C8 as stated is false: an event that carries no context at all
matches no interaction-handler filter — not even the fully-unset one —
and no shortcut filter whose context object is present-but-empty; the
claim says a no-context event matches every fully-unset filter. -/
theorem context_matching_counterexample :
    interactionContextMatches
      { windowId := none, appId := none, elementType := none,
        interactionMode := none, priority := none } none = false ∧
    shortcutContextMatches
      (some { windowId := none, appId := none, elementType := none,
              interactionMode := none, priority := none }) none = false := by
  exact ⟨rfl, rfl⟩

/-- Claim C8 (amended): for interaction-handler filters and shortcut
filters, a field set to a nonempty value matches only when it equals the
event's corresponding context field, an unset (or empty-string, falsy)
field matches any value, and an event carrying no context matches no
interaction-handler filter and exactly those shortcuts whose whole
context object is absent; shortcut matching tests windowId, appId and
interactionMode only (gesture definitions' filters are never consulted by
the router). -/
theorem context_matching_amended :
    (∀ (hc : InputContext) (ec : Option InputContext),
      interactionContextMatches hc ec = true ↔
        ∃ e, ec = some e ∧ fieldMatchSpec hc.windowId e.windowId ∧
          fieldMatchSpec hc.appId e.appId ∧
          fieldMatchSpec hc.elementType e.elementType ∧
          fieldMatchSpec hc.interactionMode e.interactionMode) ∧
    (∀ ec : Option InputContext, shortcutContextMatches none ec = true) ∧
    (∀ (h : InputContext) (ec : Option InputContext),
      shortcutContextMatches (some h) ec = true ↔
        ∃ e, ec = some e ∧ fieldMatchSpec h.windowId e.windowId ∧
          fieldMatchSpec h.appId e.appId ∧
          fieldMatchSpec h.interactionMode e.interactionMode) := by
  refine ⟨fun hc ec => ?_, fun ec => rfl, fun h ec => ?_⟩
  · cases ec with
    | none =>
      simp only [interactionContextMatches]
      constructor
      · intro hfalse
        exact Bool.noConfusion hfalse
      · rintro ⟨e, he, _⟩
        exact Option.noConfusion he
    | some e =>
      simp only [interactionContextMatches, Bool.and_eq_true, fieldFilter_iff]
      constructor
      · rintro ⟨⟨⟨h1, h2⟩, h3⟩, h4⟩
        exact ⟨e, rfl, h1, h2, h3, h4⟩
      · rintro ⟨e2, he2, h1, h2, h3, h4⟩
        rw [Option.some.inj he2]
        exact ⟨⟨⟨h1, h2⟩, h3⟩, h4⟩
  · cases ec with
    | none =>
      simp only [shortcutContextMatches]
      constructor
      · intro hfalse
        exact Bool.noConfusion hfalse
      · rintro ⟨e, he, _⟩
        exact Option.noConfusion he
    | some e =>
      simp only [shortcutContextMatches, Bool.and_eq_true, fieldFilter_iff]
      constructor
      · rintro ⟨⟨h1, h2⟩, h3⟩
        exact ⟨e, rfl, h1, h2, h3⟩
      · rintro ⟨e2, he2, h1, h2, h3⟩
        rw [Option.some.inj he2]
        exact ⟨⟨h1, h2⟩, h3⟩

end PeteOS
